import Mathlib

/-!
Verification of the supervisor/worker protocol of resolve-ai-helper.

The development shallowly embeds the parts of the repository that the
claims are about:

* the message codec (one JSON object per line; `json.dumps` / `json.loads`
  as used in `src/resolve_scripts/resolve-ai-helper.py` and
  `src/core/cli.py`), restricted to a float-free fragment: integers,
  escape-free printable-ASCII strings, booleans, null, arrays and
  objects.  The protocol also puts binary64 floats on the wire
  (`range_seconds` in `timeline_state` events, `duration` and
  `processing_time` in Results); their serialization is shortest
  round-trip float `repr` and their parsing correctly rounded binary64
  conversion, which this embedding does not model — claims quantifying
  over float-bearing messages are not settled against it;
* `json_response` and `parse_json_response` from `src/core/utils.py`;
* the worker's interactive stdin reader and command-dispatch loop
  (`stdin_reader` / `poll_commands` / `on_transcribe_requested` /
  `on_test_place` in `src/core/cli.py`, `cmd_transcribe_ui`);
* the supervisor's shutdown sequence (`main` in
  `src/resolve_scripts/resolve-ai-helper.py`);
* `format_srt_timestamp` (`src/core/utils.py`), `write_srt`
  (`src/core/transcribe.py`) and the effect structure of
  `transcribe_video` (`src/core/transcribe.py`).

Python floats are modelled as rationals; external collaborators (FFmpeg,
the Whisper engine, the Qt UI, the file system) are modelled as oracles
that fix the outcome of each external call.
-/

/-- JSON values of the modelled float-free wire fragment.  Numbers are
restricted to integers; the protocol itself also exchanges binary64
floats (`range_seconds` in `send_timeline_state`,
`src/resolve_scripts/resolve-ai-helper.py:189,208`, and
`duration`/`processing_time` in Results), which have no constructor
here and are outside everything proved about this codec.  Objects are
finite key/value lists in insertion order, which is how `json.dumps`
serializes a Python `dict`. -/
inductive Jv : Type where
  | null : Jv
  | bool : Bool → Jv
  | num : Int → Jv
  | str : String → Jv
  | arr : List Jv → Jv
  | obj : List (String × Jv) → Jv
deriving Repr

/-- Decimal digits of a positive natural number, most significant first.
The first argument is recursion fuel; it is adequate whenever `n ≤ fuel`.
Models Python's decimal rendering of `int`. -/
def natDigitsAux : Nat → Nat → List Char
  | _, 0 => []
  | 0, _ + 1 => []
  | f + 1, n + 1 => natDigitsAux f ((n + 1) / 10) ++ [Nat.digitChar ((n + 1) % 10)]

/-- Decimal representation of a natural number, as Python prints it. -/
def natRepr (n : Nat) : List Char :=
  if n = 0 then ['0'] else natDigitsAux n n

/-- Decimal representation of an integer, as Python prints it. -/
def intRepr (n : Int) : List Char :=
  if n < 0 then '-' :: natRepr n.natAbs else natRepr n.natAbs

mutual

/-- Serialization of a JSON value as a list of characters, exactly as
Python's `json.dumps` with its default separators produces it on the
modelled fragment (strings in the fragment need no escaping, so they are
emitted verbatim between quotes). -/
def dumpChars : Jv → List Char
  | .null => "null".data
  | .bool true => "true".data
  | .bool false => "false".data
  | .num n => intRepr n
  | .str s => '"' :: s.data ++ ['"']
  | .arr xs => '[' :: dumpArr xs ++ [']']
  | .obj kvs => '\x7b' :: dumpObj kvs ++ ['\x7d']

/-- Comma-separated serialization of array elements (separator `, `). -/
def dumpArr : List Jv → List Char
  | [] => []
  | [x] => dumpChars x
  | x :: y :: xs => dumpChars x ++ ',' :: ' ' :: dumpArr (y :: xs)

/-- Comma-separated serialization of object entries (separators `, ` and
`: `). -/
def dumpObj : List (String × Jv) → List Char
  | [] => []
  | [(k, v)] => '"' :: k.data ++ '"' :: ':' :: ' ' :: dumpChars v
  | (k, v) :: kv :: kvs =>
      ('"' :: k.data ++ '"' :: ':' :: ' ' :: dumpChars v)
        ++ ',' :: ' ' :: dumpObj (kv :: kvs)

end

/-- Line serialization used on both pipes: `json.dumps(message)`. -/
def dumps (v : Jv) : String := ⟨dumpChars v⟩

/-- Whitespace characters that JSON allows between tokens. -/
def isJsonWs (c : Char) : Bool :=
  c == ' ' || c == '\t' || c == '\n' || c == '\r'

/-- Drops leading JSON whitespace. -/
def skipWs : List Char → List Char
  | [] => []
  | c :: cs => if isJsonWs c then skipWs cs else c :: cs

/-- Splits a leading run of decimal digits off a character list. -/
def takeDigits : List Char → List Char × List Char
  | [] => ([], [])
  | c :: cs =>
      if c.isDigit then
        let p := takeDigits cs
        (c :: p.1, p.2)
      else ([], c :: cs)

/-- Numeric value of a list of decimal digits, most significant first. -/
def digitsVal (ds : List Char) : Nat :=
  ds.foldl (fun a c => a * 10 + (c.toNat - '0'.toNat)) 0

/-- Parses a JSON unsigned integer literal: a nonempty digit run with no
leading zero (as `json.loads` requires). -/
def parseNum (cs : List Char) : Option (Nat × List Char) :=
  match takeDigits cs with
  | ([], _) => none
  | (d :: ds, r) =>
      if d = '0' && !ds.isEmpty then none
      else some (digitsVal (d :: ds), r)

/-- Reads a JSON string body up to the closing quote.  Escape sequences
and control characters are outside the modelled fragment and fail. -/
def takeStr : List Char → Option (List Char × List Char)
  | [] => none
  | c :: cs =>
      if c = '"' then some ([], cs)
      else if c = '\\' || c.toNat < 0x20 then none
      else match takeStr cs with
        | some (s, r) => some (c :: s, r)
        | none => none

mutual

/-- Parses one JSON value from a character list, returning the value and
the unconsumed suffix.  Models `json.loads` on the fragment the protocol
uses (integers, escape-free strings, booleans, null, arrays, objects);
the first argument is recursion fuel. -/
def parseVal : Nat → List Char → Option (Jv × List Char)
  | 0, _ => none
  | f + 1, cs =>
      match skipWs cs with
      | [] => none
      | c :: r =>
          if c = 'n' then
            match r with
            | 'u' :: 'l' :: 'l' :: r1 => some (.null, r1)
            | _ => none
          else if c = 't' then
            match r with
            | 'r' :: 'u' :: 'e' :: r1 => some (.bool true, r1)
            | _ => none
          else if c = 'f' then
            match r with
            | 'a' :: 'l' :: 's' :: 'e' :: r1 => some (.bool false, r1)
            | _ => none
          else if c = '"' then
            match takeStr r with
            | some (s, r1) => some (.str ⟨s⟩, r1)
            | none => none
          else if c = '[' then
            let r1 := skipWs r
            if r1.head? = some ']' then some (.arr [], r1.tail)
            else
              match parseElems f r1 with
              | some (xs, r2) => some (.arr xs, r2)
              | none => none
          else if c = '\x7b' then
            let r1 := skipWs r
            if r1.head? = some '\x7d' then some (.obj [], r1.tail)
            else
              match parseFields f r1 with
              | some (kvs, r2) => some (.obj kvs, r2)
              | none => none
          else if c = '-' then
            match parseNum r with
            | some (n, r1) => some (.num (-(n : Int)), r1)
            | none => none
          else if c.isDigit then
            match parseNum (c :: r) with
            | some (n, r1) => some (.num (n : Int), r1)
            | none => none
          else none

/-- Parses the elements of a nonempty JSON array after the opening
bracket, consuming the closing bracket. -/
def parseElems : Nat → List Char → Option (List Jv × List Char)
  | 0, _ => none
  | f + 1, cs =>
      match parseVal f cs with
      | none => none
      | some (v, r) =>
          match skipWs r with
          | ',' :: r1 =>
              match parseElems f r1 with
              | some (xs, r2) => some (v :: xs, r2)
              | none => none
          | ']' :: r1 => some ([v], r1)
          | _ => none

/-- Parses the entries of a nonempty JSON object after the opening brace,
consuming the closing brace. -/
def parseFields : Nat → List Char → Option (List (String × Jv) × List Char)
  | 0, _ => none
  | f + 1, cs =>
      match skipWs cs with
      | '"' :: r =>
          (match takeStr r with
          | none => none
          | some (k, r1) =>
              match skipWs r1 with
              | ':' :: r2 =>
                  (match parseVal f r2 with
                  | none => none
                  | some (v, r3) =>
                      match skipWs r3 with
                      | ',' :: r4 =>
                          (match parseFields f r4 with
                          | some (kvs, r5) => some ((⟨k⟩, v) :: kvs, r5)
                          | none => none)
                      | '\x7d' :: r4 => some ([(⟨k⟩, v)], r4)
                      | _ => none)
              | _ => none)
      | _ => none

end

/-- Line parser used on both pipes: `json.loads(line)`, failing (raising
`JSONDecodeError` in the source) when the line is not a single JSON value
of the modelled fragment. -/
def loads (s : String) : Option Jv :=
  match parseVal (2 * s.length + 1) s.data with
  | some (v, r) => if skipWs r = [] then some v else none
  | none => none

example : loads "42" = some (.num 42) := by rfl
example : loads "not json" = none := by rfl
example : loads "  null " = some .null := by rfl
example : loads "[1, 2]" = some (.arr [.num 1, .num 2]) := by rfl
example : dumps (.obj [("a", .num 1), ("b", .str "x")]) = "\x7b\"a\": 1, \"b\": \"x\"\x7d" := by rfl
example : loads "\x7b\"a\": 1\x7d" = some (.obj [("a", .num 1)]) := by rfl
example : loads "\x7b\"cmd\": \"shutdown\"\x7d" = some (.obj [("cmd", .str "shutdown")]) := by rfl

/-- Characters that `json.dumps` emits verbatim inside a string literal in
either `ensure_ascii` mode and that `json.loads` reads back unchanged:
printable ASCII other than the quote and the backslash. -/
def plainC (c : Char) : Bool :=
  !(c == '"') && !(c == '\\') && decide (0x20 ≤ c.toNat) && decide (c.toNat ≤ 0x7E)

/-- Strings of the modelled wire fragment: all characters plain. -/
def plainS (s : String) : Bool := s.data.all plainC

mutual

/-- JSON values of the modelled wire fragment: every string is plain. -/
def plainJ : Jv → Bool
  | .null => true
  | .bool _ => true
  | .num _ => true
  | .str s => plainS s
  | .arr xs => plainArr xs
  | .obj kvs => plainFlds kvs

/-- Element-wise plainness of an array. -/
def plainArr : List Jv → Bool
  | [] => true
  | x :: xs => plainJ x && plainArr xs

/-- Entry-wise plainness of an object. -/
def plainFlds : List (String × Jv) → Bool
  | [] => true
  | (k, v) :: kvs => plainS k && plainJ v && plainFlds kvs

end

mutual

/-- Recursion fuel adequate for `parseVal` to parse the serialization of
a value. -/
def fuelJ : Jv → Nat
  | .arr xs => 1 + fuelArr xs
  | .obj kvs => 1 + fuelFields kvs
  | _ => 1

/-- Fuel adequate for `parseElems` on serialized array elements. -/
def fuelArr : List Jv → Nat
  | [] => 1
  | x :: xs => 1 + fuelJ x + fuelArr xs

/-- Fuel adequate for `parseFields` on serialized object entries. -/
def fuelFields : List (String × Jv) → Nat
  | [] => 1
  | (_, v) :: kvs => 1 + fuelJ v + fuelFields kvs

end

/-- Holds when a suffix cannot extend a decimal literal preceding it. -/
def numSafe : List Char → Bool
  | [] => true
  | c :: _ => !c.isDigit

theorem fuelJ_pos (v : Jv) : 1 ≤ fuelJ v := by
  cases v <;> simp [fuelJ]

theorem fuelArr_pos (xs : List Jv) : 1 ≤ fuelArr xs := by
  cases xs with
  | nil => simp [fuelArr]
  | cons x xs => simp only [fuelArr]; omega

theorem fuelFields_pos (kvs : List (String × Jv)) : 1 ≤ fuelFields kvs := by
  cases kvs with
  | nil => simp [fuelFields]
  | cons kv kvs => obtain ⟨k, v⟩ := kv; simp only [fuelFields]; omega

theorem skipWs_cons_of_not (c : Char) (cs : List Char) (h : isJsonWs c = false) :
    skipWs (c :: cs) = c :: cs := by
  simp [skipWs, h]

theorem skipWs_append_ws (pre cs : List Char) (h : pre.all isJsonWs = true) :
    skipWs (pre ++ cs) = skipWs cs := by
  induction pre with
  | nil => rfl
  | cons c p ih =>
      rw [List.all_cons, Bool.and_eq_true] at h
      rw [List.cons_append]
      simp [skipWs, h.1, ih h.2]

theorem ne_of_isDigit (c x : Char) (h : c.isDigit = true) (hx : x.isDigit = false) :
    c ≠ x := by
  intro he
  rw [he, hx] at h
  cases h

theorem isJsonWs_eq_false_of_isDigit (c : Char) (h : c.isDigit = true) :
    isJsonWs c = false := by
  by_contra hw
  rw [Bool.not_eq_false, isJsonWs] at hw
  simp only [Bool.or_eq_true, beq_iff_eq] at hw
  rcases hw with ((rfl | rfl) | rfl) | rfl <;> exact absurd h (by decide)

theorem digitChar_isDigit (k : Nat) (h : k < 10) : (Nat.digitChar k).isDigit = true := by
  interval_cases k <;> decide

theorem digitChar_toNat (k : Nat) (h : k < 10) :
    (Nat.digitChar k).toNat - '0'.toNat = k := by
  interval_cases k <;> decide

theorem digitChar_ne_zero (k : Nat) (h1 : 0 < k) (h2 : k < 10) :
    Nat.digitChar k ≠ '0' := by
  interval_cases k <;> decide

theorem digitsVal_append_singleton (ds : List Char) (c : Char) :
    digitsVal (ds ++ [c]) = digitsVal ds * 10 + (c.toNat - '0'.toNat) := by
  simp [digitsVal, List.foldl_append]

theorem natDigitsAux_all_digit (f : Nat) :
    ∀ n, n ≤ f → ∀ c ∈ natDigitsAux f n, c.isDigit = true := by
  induction f with
  | zero =>
      intro n hn c hc
      interval_cases n
      simp [natDigitsAux] at hc
  | succ f ih =>
      intro n hn c hc
      match n with
      | 0 => simp [natDigitsAux] at hc
      | m + 1 =>
          rw [natDigitsAux] at hc
          rcases List.mem_append.mp hc with h | h
          · exact ih _ (by
              have := Nat.div_lt_self (Nat.succ_pos m) (by norm_num : 1 < 10)
              omega) _ h
          · rw [List.mem_singleton] at h
            subst h
            exact digitChar_isDigit _ (Nat.mod_lt _ (by norm_num))

theorem natDigitsAux_val (f : Nat) :
    ∀ n, n ≤ f → digitsVal (natDigitsAux f n) = n := by
  induction f with
  | zero =>
      intro n hn
      interval_cases n
      simp [natDigitsAux, digitsVal]
  | succ f ih =>
      intro n hn
      match n with
      | 0 => simp [natDigitsAux, digitsVal]
      | m + 1 =>
          rw [natDigitsAux, digitsVal_append_singleton]
          rw [ih ((m + 1) / 10) (by
            have := Nat.div_lt_self (Nat.succ_pos m) (by norm_num : 1 < 10)
            omega)]
          rw [digitChar_toNat _ (Nat.mod_lt _ (by norm_num))]
          omega

theorem natDigitsAux_head (f : Nat) :
    ∀ n, n ≤ f → 0 < n → ∃ d ds, natDigitsAux f n = d :: ds ∧ d ≠ '0' := by
  induction f with
  | zero => intro n hn h0; omega
  | succ f ih =>
      intro n hn h0
      match n with
      | m + 1 =>
          rw [natDigitsAux]
          by_cases hq : (m + 1) / 10 = 0
          · rw [hq]
            have hm : m + 1 < 10 := by
              by_contra hge
              have := Nat.div_le_div_right (c := 10) (Nat.le_of_not_lt hge)
              simp at this
              omega
            have hr : (m + 1) % 10 = m + 1 := Nat.mod_eq_of_lt hm
            refine ⟨Nat.digitChar ((m + 1) % 10), [], by simp [natDigitsAux], ?_⟩
            rw [hr]
            exact digitChar_ne_zero _ (Nat.succ_pos m) hm
          · obtain ⟨d, ds, hds, hd⟩ := ih ((m + 1) / 10) (by
              have := Nat.div_lt_self (Nat.succ_pos m) (by norm_num : 1 < 10)
              omega) (Nat.pos_of_ne_zero hq)
            exact ⟨d, ds ++ [Nat.digitChar ((m + 1) % 10)], by rw [hds]; rfl, hd⟩

theorem natRepr_all_digit (n : Nat) : ∀ c ∈ natRepr n, c.isDigit = true := by
  intro c hc
  rw [natRepr] at hc
  by_cases h : n = 0
  · rw [if_pos h, List.mem_singleton] at hc
    subst hc
    decide
  · rw [if_neg h] at hc
    exact natDigitsAux_all_digit n n le_rfl c hc

theorem natRepr_val (n : Nat) : digitsVal (natRepr n) = n := by
  rw [natRepr]
  by_cases h : n = 0
  · subst h; decide
  · rw [if_neg h]
    exact natDigitsAux_val n n le_rfl

theorem natRepr_spec (n : Nat) :
    ∃ d ds, natRepr n = d :: ds ∧ (d = '0' → ds = []) := by
  rw [natRepr]
  by_cases h : n = 0
  · exact ⟨'0', [], by rw [if_pos h], fun _ => rfl⟩
  · obtain ⟨d, ds, hds, hd⟩ := natDigitsAux_head n n le_rfl (Nat.pos_of_ne_zero h)
    exact ⟨d, ds, by rw [if_neg h, hds], fun he => absurd he hd⟩

theorem takeDigits_append (ds rest : List Char) (h : ∀ c ∈ ds, c.isDigit = true)
    (hr : numSafe rest = true) : takeDigits (ds ++ rest) = (ds, rest) := by
  induction ds with
  | nil =>
      cases rest with
      | nil => rfl
      | cons c t =>
          rw [numSafe, Bool.not_eq_true'] at hr
          simp [takeDigits, hr]
  | cons c t ih =>
      have hc : c.isDigit = true := h c (List.mem_cons_self c t)
      rw [List.cons_append, takeDigits]
      simp only [hc, if_true]
      rw [ih fun x hx => h x (List.mem_cons_of_mem _ hx)]

theorem parseNum_natRepr (n : Nat) (rest : List Char) (hr : numSafe rest = true) :
    parseNum (natRepr n ++ rest) = some (n, rest) := by
  obtain ⟨d, ds, hds, hz⟩ := natRepr_spec n
  have hall := natRepr_all_digit n
  rw [hds] at hall ⊢
  rw [parseNum, List.cons_append,
    show (d :: (ds ++ rest)) = (d :: ds) ++ rest from rfl,
    takeDigits_append _ _ hall hr]
  have hguard : (decide (d = '0') && !ds.isEmpty) = false := by
    by_cases hd : d = '0'
    · rw [hz hd]; simp
    · simp [hd]
  show (if (decide (d = '0') && !ds.isEmpty) = true then none
    else some (digitsVal (d :: ds), rest)) = some (n, rest)
  rw [hguard]
  simp only [Bool.false_eq_true, if_false]
  rw [← hds, natRepr_val]

theorem takeStr_append (s rest : List Char) (h : ∀ c ∈ s, plainC c = true) :
    takeStr (s ++ '"' :: rest) = some (s, rest) := by
  induction s with
  | nil => simp [takeStr]
  | cons c t ih =>
      have hc : plainC c = true := h c (List.mem_cons_self c t)
      rw [plainC] at hc
      simp only [Bool.and_eq_true, Bool.not_eq_true', beq_eq_false_iff_ne, ne_eq,
        decide_eq_true_eq] at hc
      have hlow : ¬ c.toNat < 0x20 := by omega
      rw [List.cons_append, takeStr]
      rw [if_neg hc.1.1.1, if_neg (by
        simp only [Bool.or_eq_true, decide_eq_true_eq]
        push_neg
        exact ⟨hc.1.1.2, by omega⟩)]
      rw [ih fun x hx => h x (List.mem_cons_of_mem _ hx)]

theorem parseVal_ws_preamble (f : Nat) (pre z : List Char) (h : pre.all isJsonWs = true) :
    parseVal f (pre ++ z) = parseVal f z := by
  cases f with
  | zero => rfl
  | succ f =>
      rw [parseVal, parseVal, skipWs_append_ws pre z h]

theorem dumpArr_cons (x : Jv) (xs : List Jv) :
    ∃ t, dumpArr (x :: xs) = dumpChars x ++ t := by
  cases xs with
  | nil => exact ⟨[], by simp [dumpArr]⟩
  | cons y ys => exact ⟨',' :: ' ' :: dumpArr (y :: ys), by rw [dumpArr]⟩

theorem dumpChars_head (v : Jv) :
    ∃ c t, dumpChars v = c :: t ∧ isJsonWs c = false ∧ c ≠ ']' ∧ c ≠ '\x7d' := by
  cases v with
  | null => exact ⟨'n', _, rfl, by decide, by decide, by decide⟩
  | bool b => cases b with
      | false => exact ⟨'f', _, rfl, by decide, by decide, by decide⟩
      | true => exact ⟨'t', _, rfl, by decide, by decide, by decide⟩
  | num n =>
      rw [dumpChars, intRepr]
      by_cases hn : n < 0
      · exact ⟨'-', _, by rw [if_pos hn], by decide, by decide, by decide⟩
      · obtain ⟨d, ds, hds, _⟩ := natRepr_spec n.natAbs
        have hd : d.isDigit = true := natRepr_all_digit n.natAbs d (by rw [hds]; exact List.mem_cons_self d ds)
        exact ⟨d, ds, by rw [if_neg hn, hds], isJsonWs_eq_false_of_isDigit d hd,
          ne_of_isDigit d _ hd (by decide), ne_of_isDigit d _ hd (by decide)⟩
  | str s => exact ⟨'"', _, rfl, by decide, by decide, by decide⟩
  | arr xs => exact ⟨'[', _, rfl, by decide, by decide, by decide⟩
  | obj kvs => exact ⟨'\x7b', _, rfl, by decide, by decide, by decide⟩

theorem parseVal_null_lit (g : Nat) (r : List Char) :
    parseVal (g + 1) ('n' :: 'u' :: 'l' :: 'l' :: r) = some (.null, r) := rfl

theorem parseVal_true_lit (g : Nat) (r : List Char) :
    parseVal (g + 1) ('t' :: 'r' :: 'u' :: 'e' :: r) = some (.bool true, r) := rfl

theorem parseVal_false_lit (g : Nat) (r : List Char) :
    parseVal (g + 1) ('f' :: 'a' :: 'l' :: 's' :: 'e' :: r) = some (.bool false, r) := rfl

theorem parseVal_quote (g : Nat) (r : List Char) :
    parseVal (g + 1) ('"' :: r) =
      (match takeStr r with
       | some (s, r1) => some (.str ⟨s⟩, r1)
       | none => none) := rfl

theorem parseVal_lbrack (g : Nat) (r : List Char) :
    parseVal (g + 1) ('[' :: r) =
      (if (skipWs r).head? = some ']' then some (.arr [], (skipWs r).tail)
       else
         match parseElems g (skipWs r) with
         | some (xs, r2) => some (.arr xs, r2)
         | none => none) := rfl

theorem parseVal_lbrace (g : Nat) (r : List Char) :
    parseVal (g + 1) ('\x7b' :: r) =
      (if (skipWs r).head? = some '\x7d' then some (.obj [], (skipWs r).tail)
       else
         match parseFields g (skipWs r) with
         | some (kvs, r2) => some (.obj kvs, r2)
         | none => none) := rfl

theorem parseVal_minus (g : Nat) (r : List Char) :
    parseVal (g + 1) ('-' :: r) =
      (match parseNum r with
       | some (n, r1) => some (.num (-(n : Int)), r1)
       | none => none) := rfl

theorem parseVal_digit_head (g : Nat) (c : Char) (r : List Char) (hc : c.isDigit = true) :
    parseVal (g + 1) (c :: r) =
      (match parseNum (c :: r) with
       | some (n, r1) => some (.num (n : Int), r1)
       | none => none) := by
  rw [parseVal, skipWs_cons_of_not _ _ (isJsonWs_eq_false_of_isDigit c hc)]
  simp only [eq_false (ne_of_isDigit c 'n' hc (by decide)),
    eq_false (ne_of_isDigit c 't' hc (by decide)),
    eq_false (ne_of_isDigit c 'f' hc (by decide)),
    eq_false (ne_of_isDigit c '"' hc (by decide)),
    eq_false (ne_of_isDigit c '[' hc (by decide)),
    eq_false (ne_of_isDigit c '\x7b' hc (by decide)),
    eq_false (ne_of_isDigit c '-' hc (by decide)),
    hc, if_false, if_true]


theorem parseVal_dumps_str (g : Nat) (s : String) (rest : List Char)
    (hv : plainS s = true) :
    parseVal (g + 1) (dumpChars (.str s) ++ rest) = some (.str s, rest) := by
  have hshape : dumpChars (.str s) ++ rest = '"' :: (s.data ++ '"' :: rest) := by
    rw [dumpChars]; simp
  rw [hshape, parseVal_quote, takeStr_append s.data rest
    (fun c hc => List.all_eq_true.mp (by rw [plainS] at hv; exact hv) c hc)]

theorem parseVal_dumps_num (g : Nat) (n : Int) (rest : List Char)
    (hr : numSafe rest = true) :
    parseVal (g + 1) (dumpChars (.num n) ++ rest) = some (.num n, rest) := by
  rcases n with m | m
  · rw [dumpChars, intRepr, if_neg (by exact Int.not_lt.mpr (Int.ofNat_nonneg m)),
      show (Int.ofNat m).natAbs = m from rfl]
    obtain ⟨d, ds, hds, _⟩ := natRepr_spec m
    have hd : d.isDigit = true :=
      natRepr_all_digit m d (by rw [hds]; exact List.mem_cons_self d ds)
    rw [hds, List.cons_append, parseVal_digit_head g d (ds ++ rest) hd,
      show d :: (ds ++ rest) = (d :: ds) ++ rest from rfl, ← hds,
      parseNum_natRepr m rest hr]
    rfl
  · rw [dumpChars, intRepr, if_pos (Int.negSucc_lt_zero m),
      show (Int.negSucc m).natAbs = m + 1 from rfl, List.cons_append,
      parseVal_minus, parseNum_natRepr (m + 1) rest hr]
    rfl

mutual

theorem parseVal_dumps : ∀ (v : Jv), plainJ v = true → ∀ (g : Nat) (rest : List Char),
    fuelJ v ≤ g → numSafe rest = true →
    parseVal (g + 1) (dumpChars v ++ rest) = some (v, rest)
  | .null, hv, g, rest, hf, hr => by
      rw [dumpChars]; exact parseVal_null_lit g rest
  | .bool true, hv, g, rest, hf, hr => by
      rw [dumpChars]; exact parseVal_true_lit g rest
  | .bool false, hv, g, rest, hf, hr => by
      rw [dumpChars]; exact parseVal_false_lit g rest
  | .str s, hv, g, rest, hf, hr =>
      parseVal_dumps_str g s rest (by rw [plainJ, plainS] at hv; exact hv)
  | .num n, hv, g, rest, hf, hr => parseVal_dumps_num g n rest hr
  | .arr [], hv, g, rest, hf, hr => by
      have hshape : dumpChars (.arr []) ++ rest = '[' :: ']' :: rest := by
        rw [dumpChars, dumpArr]; rfl
      rw [hshape, parseVal_lbrack]
      rfl
  | .arr (x :: xs), hv, g, rest, hf, hr => by
      have hx : plainArr (x :: xs) = true := by rw [plainJ] at hv; exact hv
      obtain ⟨t, ht⟩ := dumpArr_cons x xs
      obtain ⟨c0, t0, hc0, hnws, hne1, _⟩ := dumpChars_head x
      have hshape : dumpChars (.arr (x :: xs)) ++ rest
          = '[' :: (dumpArr (x :: xs) ++ ']' :: rest) := by
        rw [dumpChars]; simp
      rw [hshape, parseVal_lbrack]
      have hX : skipWs (dumpArr (x :: xs) ++ ']' :: rest)
          = dumpArr (x :: xs) ++ ']' :: rest := by
        rw [ht, hc0]
        rw [show (c0 :: t0) ++ t ++ ']' :: rest = c0 :: (t0 ++ t ++ ']' :: rest) by simp]
        exact skipWs_cons_of_not _ _ hnws
      have hhd : (dumpArr (x :: xs) ++ ']' :: rest).head? = some c0 := by
        rw [ht, hc0]; simp
      rw [hX, hhd, if_neg (by simpa using hne1)]
      obtain ⟨g2, rfl⟩ : ∃ g2, g = g2 + 1 := ⟨g - 1, by
        have := fuelArr_pos (x :: xs)
        simp only [fuelJ] at hf
        omega⟩
      have h2 := parseElems_dumps x xs hx g2 [] rest rfl
        (by simp only [fuelJ] at hf; omega)
      rw [List.nil_append] at h2
      simp only [h2]
  | .obj [], hv, g, rest, hf, hr => by
      have hshape : dumpChars (.obj []) ++ rest = '\x7b' :: '\x7d' :: rest := by
        rw [dumpChars, dumpObj]; rfl
      rw [hshape, parseVal_lbrace]
      rfl
  | .obj ((k, v) :: kvs), hv, g, rest, hf, hr => by
      have hx : plainFlds ((k, v) :: kvs) = true := by rw [plainJ] at hv; exact hv
      have hobjhead : ∃ t, dumpObj ((k, v) :: kvs) = '"' :: t := by
        cases kvs with
        | nil => exact ⟨_, rfl⟩
        | cons kv2 kvs2 =>
            obtain ⟨k2, v2⟩ := kv2
            exact ⟨k.data ++ '"' :: ':' :: ' ' :: dumpChars v
              ++ ',' :: ' ' :: dumpObj ((k2, v2) :: kvs2), by rw [dumpObj]; simp⟩
      obtain ⟨t, ht⟩ := hobjhead
      have hshape : dumpChars (.obj ((k, v) :: kvs)) ++ rest
          = '\x7b' :: (dumpObj ((k, v) :: kvs) ++ '\x7d' :: rest) := by
        rw [dumpChars]; simp
      rw [hshape, parseVal_lbrace]
      have hX : skipWs (dumpObj ((k, v) :: kvs) ++ '\x7d' :: rest)
          = dumpObj ((k, v) :: kvs) ++ '\x7d' :: rest := by
        rw [ht, List.cons_append]
        exact skipWs_cons_of_not _ _ (by decide)
      have hhd : (dumpObj ((k, v) :: kvs) ++ '\x7d' :: rest).head? = some '"' := by
        rw [ht]; simp
      rw [hX, hhd, if_neg (by simp)]
      obtain ⟨g2, rfl⟩ : ∃ g2, g = g2 + 1 := ⟨g - 1, by
        have := fuelFields_pos ((k, v) :: kvs)
        simp only [fuelJ] at hf
        omega⟩
      have h2 := parseFields_dumps k v kvs hx g2 [] rest rfl
        (by simp only [fuelJ] at hf; omega)
      rw [List.nil_append] at h2
      simp only [h2]
termination_by v => sizeOf v
decreasing_by all_goals (simp_wf; try omega)

theorem parseElems_dumps : ∀ (x : Jv) (xs : List Jv), plainArr (x :: xs) = true →
    ∀ (g : Nat) (pre rest : List Char), pre.all isJsonWs = true → fuelArr (x :: xs) ≤ g →
    parseElems (g + 1) (pre ++ (dumpArr (x :: xs) ++ ']' :: rest)) = some (x :: xs, rest)
  | x, [], hv0, g, pre, rest, hpre, hf => by
      have hv : plainJ x = true ∧ plainArr ([] : List Jv) = true := by
        rw [plainArr, Bool.and_eq_true] at hv0; exact hv0
      obtain ⟨g1, rfl⟩ : ∃ g1, g = g1 + 1 := ⟨g - 1, by
        have h1 := fuelJ_pos x
        simp only [fuelArr] at hf
        omega⟩
      rw [parseElems]
      have hshape : pre ++ (dumpArr [x] ++ ']' :: rest)
          = pre ++ (dumpChars x ++ ']' :: rest) := by
        rw [dumpArr]
      have h1 : parseVal (g1 + 1) (pre ++ (dumpChars x ++ ']' :: rest))
          = some (x, ']' :: rest) := by
        rw [parseVal_ws_preamble _ pre _ hpre]
        exact parseVal_dumps x hv.1 g1 (']' :: rest)
          (by simp only [fuelArr] at hf; omega) rfl
      have hsk : skipWs (']' :: rest) = ']' :: rest := skipWs_cons_of_not _ _ (by decide)
      simp only [hshape, h1, hsk]
  | x, y :: ys, hv0, g, pre, rest, hpre, hf => by
      have hv : plainJ x = true ∧ plainArr (y :: ys) = true := by
        rw [plainArr, Bool.and_eq_true] at hv0; exact hv0
      obtain ⟨g1, rfl⟩ : ∃ g1, g = g1 + 1 := ⟨g - 1, by
        have h1 := fuelJ_pos x
        simp only [fuelArr] at hf
        omega⟩
      rw [parseElems]
      have hshape : pre ++ (dumpArr (x :: y :: ys) ++ ']' :: rest)
          = pre ++ (dumpChars x ++ (',' :: ' ' :: (dumpArr (y :: ys) ++ ']' :: rest))) := by
        rw [dumpArr]; simp
      have h1 : parseVal (g1 + 1)
          (pre ++ (dumpChars x ++ (',' :: ' ' :: (dumpArr (y :: ys) ++ ']' :: rest))))
          = some (x, ',' :: ' ' :: (dumpArr (y :: ys) ++ ']' :: rest)) := by
        rw [parseVal_ws_preamble _ pre _ hpre]
        exact parseVal_dumps x hv.1 g1 _
          (by simp only [fuelArr] at hf; omega) rfl
      have hsk : skipWs (',' :: ' ' :: (dumpArr (y :: ys) ++ ']' :: rest))
          = ',' :: ' ' :: (dumpArr (y :: ys) ++ ']' :: rest) :=
        skipWs_cons_of_not _ _ (by decide)
      have h2 := parseElems_dumps y ys hv.2 g1 [' '] rest rfl
        (by simp only [fuelArr] at hf ⊢; omega)
      rw [List.singleton_append] at h2
      simp only [hshape, h1, hsk, h2]
termination_by x xs => 1 + sizeOf x + sizeOf xs
decreasing_by all_goals (simp_wf; try omega)

theorem parseFields_dumps : ∀ (k : String) (v : Jv) (kvs : List (String × Jv)),
    plainFlds ((k, v) :: kvs) = true →
    ∀ (g : Nat) (pre rest : List Char), pre.all isJsonWs = true →
    fuelFields ((k, v) :: kvs) ≤ g →
    parseFields (g + 1) (pre ++ (dumpObj ((k, v) :: kvs) ++ '\x7d' :: rest))
      = some ((k, v) :: kvs, rest)
  | k, v, [], hv0, g, pre, rest, hpre, hf => by
      have hv : (plainS k = true ∧ plainJ v = true) ∧ plainFlds ([] : List (String × Jv)) = true := by
        rw [plainFlds, Bool.and_eq_true, Bool.and_eq_true] at hv0; exact hv0
      obtain ⟨g1, rfl⟩ : ∃ g1, g = g1 + 1 := ⟨g - 1, by
        have h1 := fuelJ_pos v
        simp only [fuelFields] at hf
        omega⟩
      rw [parseFields]
      have hkplain : ∀ c ∈ k.data, plainC c = true :=
        fun c hc => List.all_eq_true.mp (by have := hv.1.1; rw [plainS] at this; exact this) c hc
      have hshape : pre ++ (dumpObj [(k, v)] ++ '\x7d' :: rest)
          = pre ++ ('"' :: (k.data ++ '"' :: (':' :: ' ' :: (dumpChars v ++ '\x7d' :: rest)))) := by
        rw [dumpObj]; simp
      have hsk : skipWs (pre ++ ('"' :: (k.data ++ '"' :: (':' :: ' ' :: (dumpChars v ++ '\x7d' :: rest)))))
          = '"' :: (k.data ++ '"' :: (':' :: ' ' :: (dumpChars v ++ '\x7d' :: rest))) := by
        rw [skipWs_append_ws _ _ hpre]
        exact skipWs_cons_of_not _ _ (by decide)
      have hts : takeStr (k.data ++ '"' :: (':' :: ' ' :: (dumpChars v ++ '\x7d' :: rest)))
          = some (k.data, ':' :: ' ' :: (dumpChars v ++ '\x7d' :: rest)) :=
        takeStr_append _ _ hkplain
      have hsk2 : skipWs (':' :: ' ' :: (dumpChars v ++ '\x7d' :: rest))
          = ':' :: ' ' :: (dumpChars v ++ '\x7d' :: rest) :=
        skipWs_cons_of_not _ _ (by decide)
      have h1 : parseVal (g1 + 1) (' ' :: (dumpChars v ++ '\x7d' :: rest))
          = some (v, '\x7d' :: rest) := by
        rw [show ' ' :: (dumpChars v ++ '\x7d' :: rest)
          = [' '] ++ (dumpChars v ++ '\x7d' :: rest) from rfl]
        rw [parseVal_ws_preamble _ [' '] _ rfl]
        exact parseVal_dumps v hv.1.2 g1 ('\x7d' :: rest)
          (by simp only [fuelFields] at hf; omega) rfl
      have hsk3 : skipWs ('\x7d' :: rest) = '\x7d' :: rest :=
        skipWs_cons_of_not _ _ (by decide)
      simp only [hshape, hsk, hts, hsk2, h1, hsk3]
  | k, v, (k2, v2) :: kvs2, hv0, g, pre, rest, hpre, hf => by
      have hv : (plainS k = true ∧ plainJ v = true) ∧ plainFlds ((k2, v2) :: kvs2) = true := by
        rw [plainFlds, Bool.and_eq_true, Bool.and_eq_true] at hv0; exact hv0
      obtain ⟨g1, rfl⟩ : ∃ g1, g = g1 + 1 := ⟨g - 1, by
        have h1 := fuelJ_pos v
        simp only [fuelFields] at hf
        omega⟩
      rw [parseFields]
      have hkplain : ∀ c ∈ k.data, plainC c = true :=
        fun c hc => List.all_eq_true.mp (by have := hv.1.1; rw [plainS] at this; exact this) c hc
      have hshape : pre ++ (dumpObj ((k, v) :: (k2, v2) :: kvs2) ++ '\x7d' :: rest)
          = pre ++ ('"' :: (k.data ++ '"' :: (':' :: ' ' ::
              (dumpChars v ++ ',' :: ' ' :: (dumpObj ((k2, v2) :: kvs2) ++ '\x7d' :: rest))))) := by
        rw [dumpObj]; simp
      have hsk : skipWs (pre ++ ('"' :: (k.data ++ '"' :: (':' :: ' ' ::
              (dumpChars v ++ ',' :: ' ' :: (dumpObj ((k2, v2) :: kvs2) ++ '\x7d' :: rest))))))
          = '"' :: (k.data ++ '"' :: (':' :: ' ' ::
              (dumpChars v ++ ',' :: ' ' :: (dumpObj ((k2, v2) :: kvs2) ++ '\x7d' :: rest)))) := by
        rw [skipWs_append_ws _ _ hpre]
        exact skipWs_cons_of_not _ _ (by decide)
      have hts : takeStr (k.data ++ '"' :: (':' :: ' ' ::
              (dumpChars v ++ ',' :: ' ' :: (dumpObj ((k2, v2) :: kvs2) ++ '\x7d' :: rest))))
          = some (k.data, ':' :: ' ' ::
              (dumpChars v ++ ',' :: ' ' :: (dumpObj ((k2, v2) :: kvs2) ++ '\x7d' :: rest))) :=
        takeStr_append _ _ hkplain
      have hsk2 : skipWs (':' :: ' ' ::
              (dumpChars v ++ ',' :: ' ' :: (dumpObj ((k2, v2) :: kvs2) ++ '\x7d' :: rest)))
          = ':' :: ' ' ::
              (dumpChars v ++ ',' :: ' ' :: (dumpObj ((k2, v2) :: kvs2) ++ '\x7d' :: rest)) :=
        skipWs_cons_of_not _ _ (by decide)
      have h1 : parseVal (g1 + 1) (' ' ::
              (dumpChars v ++ ',' :: ' ' :: (dumpObj ((k2, v2) :: kvs2) ++ '\x7d' :: rest)))
          = some (v, ',' :: ' ' :: (dumpObj ((k2, v2) :: kvs2) ++ '\x7d' :: rest)) := by
        rw [show ' ' :: (dumpChars v ++ ',' :: ' ' :: (dumpObj ((k2, v2) :: kvs2) ++ '\x7d' :: rest))
          = [' '] ++ (dumpChars v ++ ',' :: ' ' :: (dumpObj ((k2, v2) :: kvs2) ++ '\x7d' :: rest)) from rfl]
        rw [parseVal_ws_preamble _ [' '] _ rfl]
        exact parseVal_dumps v hv.1.2 g1 _
          (by simp only [fuelFields] at hf; omega) rfl
      have hsk3 : skipWs (',' :: ' ' :: (dumpObj ((k2, v2) :: kvs2) ++ '\x7d' :: rest))
          = ',' :: ' ' :: (dumpObj ((k2, v2) :: kvs2) ++ '\x7d' :: rest) :=
        skipWs_cons_of_not _ _ (by decide)
      have h2 := parseFields_dumps k2 v2 kvs2 hv.2 g1 [' '] rest rfl
        (by simp only [fuelFields] at hf ⊢; omega)
      rw [List.singleton_append] at h2
      simp only [hshape, hsk, hts, hsk2, h1, hsk3, h2]
termination_by k v kvs => 2 + sizeOf k + sizeOf v + sizeOf kvs
decreasing_by all_goals (simp_wf; try omega)

end

theorem intRepr_ne_nil (n : Int) : (intRepr n).length ≥ 1 := by
  rw [intRepr]
  obtain ⟨d, ds, hds, _⟩ := natRepr_spec n.natAbs
  by_cases h : n < 0
  · rw [if_pos h]; simp
  · rw [if_neg h, hds]; simp

mutual

theorem fuelJ_le_len : ∀ (v : Jv), fuelJ v ≤ 2 * (dumpChars v).length
  | .null => by simp [fuelJ, dumpChars]
  | .bool true => by simp [fuelJ, dumpChars]
  | .bool false => by simp [fuelJ, dumpChars]
  | .num n => by
      have := intRepr_ne_nil n
      simp only [fuelJ, dumpChars]
      omega
  | .str s => by simp only [fuelJ, dumpChars]; simp; omega
  | .arr xs => by
      have h := fuelArr_le_len xs
      rw [fuelJ, dumpChars]
      simp only [List.length_cons, List.length_append, List.length_singleton]
      omega
  | .obj kvs => by
      have h := fuelFields_le_len kvs
      rw [fuelJ, dumpChars]
      simp only [List.length_cons, List.length_append, List.length_singleton]
      omega

theorem fuelArr_le_len : ∀ (xs : List Jv), fuelArr xs ≤ 2 * (dumpArr xs).length + 3
  | [] => by simp [fuelArr, dumpArr]
  | [x] => by
      have h := fuelJ_le_len x
      rw [fuelArr, fuelArr, dumpArr]
      omega
  | x :: y :: ys => by
      have h1 := fuelJ_le_len x
      have h2 := fuelArr_le_len (y :: ys)
      rw [fuelArr, dumpArr]
      simp only [List.length_append, List.length_cons]
      omega

theorem fuelFields_le_len : ∀ (kvs : List (String × Jv)),
    fuelFields kvs ≤ 2 * (dumpObj kvs).length + 3
  | [] => by simp [fuelFields, dumpObj]
  | [(k, v)] => by
      have h := fuelJ_le_len v
      rw [fuelFields, fuelFields, dumpObj]
      simp only [List.length_cons, List.length_append]
      omega
  | (k, v) :: (k2, v2) :: kvs => by
      have h1 := fuelJ_le_len v
      have h2 := fuelFields_le_len ((k2, v2) :: kvs)
      rw [fuelFields, dumpObj]
      simp only [List.length_append, List.length_cons]
      omega

end

/-- Round-trip of the wire codec: parsing the serialization of any value
of the modelled fragment yields the value back. -/
theorem loads_dumps (v : Jv) (hv : plainJ v = true) : loads (dumps v) = some v := by
  have hbound := fuelJ_le_len v
  have h := parseVal_dumps v hv (2 * (dumpChars v).length) [] hbound rfl
  rw [List.append_nil] at h
  rw [loads, dumps]
  rw [show (String.mk (dumpChars v)).length = (dumpChars v).length from rfl,
    show (String.mk (dumpChars v)).data = dumpChars v from rfl, h]
  rfl

/-- Python `dict` assignment `d[k] = v` on an insertion-ordered
association list: overwrite in place when the key exists, append
otherwise. -/
def dictSet (d : List (String × Jv)) (k : String) (v : Jv) : List (String × Jv) :=
  if d.any (fun kv => kv.1 == k) then
    d.map (fun kv => if kv.1 == k then (k, v) else kv)
  else d ++ [(k, v)]

/-- Python `dict.update`: assign every entry of `e` into `d` in order. -/
def dictUpdate (d e : List (String × Jv)) : List (String × Jv) :=
  e.foldl (fun acc kv => dictSet acc kv.1 kv.2) d

/-- Python `dict.get`: value of the first entry with the given key. -/
def jGet (kvs : List (String × Jv)) (k : String) : Option Jv :=
  match kvs with
  | [] => none
  | (k2, v) :: rest => if k2 == k then some v else jGet rest k

/-- Intermediate state of `json_response` (`src/core/utils.py`) after the
`if data: response.update(data)` step: the response starts as
`{"success": success}` and is merged with `data` when `data` is truthy
(a nonempty dict). -/
def jsonResponseData (success : Bool) (data : Option (List (String × Jv))) :
    List (String × Jv) :=
  match data with
  | some d => if d.isEmpty then [("success", .bool success)]
              else dictUpdate [("success", .bool success)] d
  | none => [("success", .bool success)]

/-- Fields of the object `json_response` (`src/core/utils.py`) serializes:
after the data merge, `"error"` is assigned when `error` is truthy (a
nonempty string). -/
def jsonResponseFields (success : Bool) (data : Option (List (String × Jv)))
    (error : Option String) : List (String × Jv) :=
  match error with
  | some e => if e = "" then jsonResponseData success data
              else dictSet (jsonResponseData success data) "error" (.str e)
  | none => jsonResponseData success data

/-- Embedding of `json_response` (`src/core/utils.py`): builds
`{"success": success}`, merges `data` into it when `data` is truthy,
sets `"error"` when `error` is truthy, and serializes the result with
`json.dumps(response, ensure_ascii=False)`. -/
def json_response (success : Bool) (data : Option (List (String × Jv)))
    (error : Option String) : String :=
  dumps (.obj (jsonResponseFields success data error))

/-- Embedding of `parse_json_response` (`src/core/utils.py`): parse the
JSON; on a parse failure return an error-response dict instead of
raising. -/
def parse_json_response (json_str : String) : Jv :=
  match loads json_str with
  | some v => v
  | none => .obj [("success", .bool false), ("error", .str "Failed to parse response")]

theorem jGet_map_set_ne (d : List (String × Jv)) (k k2 : String) (v : Jv) (h : k ≠ k2) :
    jGet (d.map (fun kv => if kv.1 == k then (k, v) else kv)) k2 = jGet d k2 := by
  induction d with
  | nil => rfl
  | cons kv rest ih =>
      obtain ⟨k3, v3⟩ := kv
      rw [List.map_cons]
      by_cases h3 : k3 = k
      · rw [show (if ((k3, v3).1 == k) = true then (k, v) else (k3, v3)) = (k, v) from
          if_pos (by simpa using h3)]
        rw [jGet, jGet, if_neg (by simpa using h), if_neg (by
          simp only [beq_iff_eq]
          rw [h3]
          exact h)]
        exact ih
      · rw [show (if ((k3, v3).1 == k) = true then (k, v) else (k3, v3)) = (k3, v3) from
          if_neg (by simpa using h3)]
        rw [jGet, jGet]
        by_cases h4 : k3 = k2
        · rw [if_pos (by simpa using h4), if_pos (by simpa using h4)]
        · rw [if_neg (by simpa using h4), if_neg (by simpa using h4)]
          exact ih

theorem jGet_append_ne (d e : List (String × Jv)) (k2 : String) :
    jGet d k2 = none → jGet (d ++ e) k2 = jGet e k2 := by
  induction d with
  | nil => intro _; rfl
  | cons kv rest ih =>
      obtain ⟨k3, v3⟩ := kv
      intro hnone
      rw [jGet] at hnone
      rw [List.cons_append, jGet]
      by_cases h4 : k3 = k2
      · rw [if_pos (by simpa using h4)] at hnone
        cases hnone
      · rw [if_neg (by simpa using h4)] at hnone ⊢
        exact ih hnone

theorem jGet_dictSet_ne (d : List (String × Jv)) (k k2 : String) (v : Jv)
    (h : k ≠ k2) : jGet (dictSet d k v) k2 = jGet d k2 := by
  rw [dictSet]
  by_cases hmem : d.any (fun kv => kv.1 == k) = true
  · rw [if_pos hmem]
    exact jGet_map_set_ne d k k2 v h
  · rw [if_neg hmem]
    induction d with
    | nil => simp [jGet, beq_iff_eq, h]
    | cons kv rest ih =>
        obtain ⟨k3, v3⟩ := kv
        rw [List.cons_append, jGet, jGet]
        by_cases h4 : k3 = k2
        · rw [if_pos (by simpa using h4), if_pos (by simpa using h4)]
        · rw [if_neg (by simpa using h4), if_neg (by simpa using h4)]
          exact ih (by
            intro hany
            exact hmem (by rw [List.any_cons]; simp [hany]))

theorem jGet_dictUpdate_ne (d e : List (String × Jv)) (k2 : String)
    (he : ∀ kv ∈ e, kv.1 ≠ k2) :
    jGet (dictUpdate d e) k2 = jGet d k2 := by
  induction e generalizing d with
  | nil => rfl
  | cons kv rest ih =>
      obtain ⟨k3, v3⟩ := kv
      rw [dictUpdate, List.foldl_cons]
      rw [show (List.foldl (fun acc kv => dictSet acc kv.1 kv.2) (dictSet d k3 v3) rest)
        = dictUpdate (dictSet d k3 v3) rest from rfl]
      rw [ih (dictSet d k3 v3) (fun kv hkv => he kv (List.mem_cons_of_mem _ hkv))]
      exact jGet_dictSet_ne d k3 k2 v3 (he (k3, v3) (List.mem_cons_self _ _))

theorem plainFlds_append (a b : List (String × Jv)) (ha : plainFlds a = true)
    (hb : plainFlds b = true) : plainFlds (a ++ b) = true := by
  induction a with
  | nil => simpa using hb
  | cons kv rest ih =>
      obtain ⟨k, v⟩ := kv
      rw [List.cons_append]
      simp only [plainFlds, Bool.and_eq_true] at ha ⊢
      exact ⟨⟨ha.1.1, ha.1.2⟩, ih ha.2⟩

theorem plainFlds_map_set (d : List (String × Jv)) (k : String) (v : Jv)
    (hd : plainFlds d = true) (hk : plainS k = true) (hv : plainJ v = true) :
    plainFlds (d.map (fun kv => if kv.1 == k then (k, v) else kv)) = true := by
  induction d with
  | nil => rfl
  | cons kv rest ih =>
      obtain ⟨k3, v3⟩ := kv
      rw [List.map_cons]
      simp only [plainFlds, Bool.and_eq_true] at hd
      by_cases h3 : k3 = k
      · rw [show (if ((k3, v3).1 == k) = true then (k, v) else (k3, v3)) = (k, v) from
          if_pos (by simpa using h3)]
        simp only [plainFlds, Bool.and_eq_true]
        exact ⟨⟨hk, hv⟩, ih hd.2⟩
      · rw [show (if ((k3, v3).1 == k) = true then (k, v) else (k3, v3)) = (k3, v3) from
          if_neg (by simpa using h3)]
        simp only [plainFlds, Bool.and_eq_true]
        exact ⟨⟨hd.1.1, hd.1.2⟩, ih hd.2⟩

theorem plainFlds_dictSet (d : List (String × Jv)) (k : String) (v : Jv)
    (hd : plainFlds d = true) (hk : plainS k = true) (hv : plainJ v = true) :
    plainFlds (dictSet d k v) = true := by
  rw [dictSet]
  by_cases hmem : d.any (fun kv => kv.1 == k) = true
  · rw [if_pos hmem]
    exact plainFlds_map_set d k v hd hk hv
  · rw [if_neg hmem]
    exact plainFlds_append d [(k, v)] hd (by
      simp only [plainFlds, Bool.and_eq_true]
      exact ⟨⟨hk, hv⟩, by trivial⟩)

theorem plainFlds_dictUpdate (d e : List (String × Jv)) (hd : plainFlds d = true)
    (he : plainFlds e = true) : plainFlds (dictUpdate d e) = true := by
  induction e generalizing d with
  | nil => exact hd
  | cons kv rest ih =>
      obtain ⟨k3, v3⟩ := kv
      simp only [plainFlds, Bool.and_eq_true] at he
      rw [dictUpdate, List.foldl_cons]
      exact ih (dictSet d k3 v3) (plainFlds_dictSet d k3 v3 hd he.1.1 he.1.2) he.2

theorem jGet_jsonResponseData (success : Bool) (data : Option (List (String × Jv)))
    (hkeys : ∀ d, data = some d → ∀ kv ∈ d, kv.1 ≠ "success") :
    jGet (jsonResponseData success data) "success" = some (.bool success) := by
  have hbase : jGet [("success", Jv.bool success)] "success" = some (.bool success) := by
    rw [jGet, if_pos (by simp)]
  cases data with
  | none => exact hbase
  | some d =>
      rw [jsonResponseData]
      by_cases hde : d.isEmpty
      · rw [if_pos hde]
        exact hbase
      · rw [if_neg hde]
        rw [jGet_dictUpdate_ne _ d "success" (fun kv hkv => hkeys d rfl kv hkv)]
        exact hbase

theorem jGet_jsonResponseFields (success : Bool) (data : Option (List (String × Jv)))
    (error : Option String)
    (hkeys : ∀ d, data = some d → ∀ kv ∈ d, kv.1 ≠ "success") :
    jGet (jsonResponseFields success data error) "success" = some (.bool success) := by
  have hm := jGet_jsonResponseData success data hkeys
  cases error with
  | none => exact hm
  | some e =>
      rw [jsonResponseFields]
      by_cases he : e = ""
      · rw [if_pos he]; exact hm
      · rw [if_neg he, jGet_dictSet_ne _ "error" "success" _ (by decide)]
        exact hm

theorem plainFlds_jsonResponseData (success : Bool)
    (data : Option (List (String × Jv)))
    (hd : ∀ d, data = some d → plainFlds d = true) :
    plainFlds (jsonResponseData success data) = true := by
  have hbase : plainFlds [("success", Jv.bool success)] = true := by
    simp [plainFlds, plainJ, plainS, plainC]
  cases data with
  | none => exact hbase
  | some d =>
      rw [jsonResponseData]
      by_cases hde : d.isEmpty
      · rw [if_pos hde]
        exact hbase
      · rw [if_neg hde]
        exact plainFlds_dictUpdate _ d hbase (hd d rfl)

theorem plainFlds_jsonResponseFields (success : Bool)
    (data : Option (List (String × Jv))) (error : Option String)
    (hd : ∀ d, data = some d → plainFlds d = true)
    (he : ∀ e, error = some e → plainS e = true) :
    plainFlds (jsonResponseFields success data error) = true := by
  have hm := plainFlds_jsonResponseData success data hd
  cases error with
  | none => exact hm
  | some e =>
      rw [jsonResponseFields]
      by_cases hee : e = ""
      · rw [if_pos hee]; exact hm
      · rw [if_neg hee]
        exact plainFlds_dictSet _ "error" (.str e) hm (by decide) (by
          simpa [plainJ] using he e rfl)

/-- Python truthiness of a JSON value (`if not input_file`,
`cmd.get('timeline') or {}`). -/
def jvTruthy : Jv → Bool
  | .null => false
  | .bool b => b
  | .num n => !(n == 0)
  | .str s => !(s == "")
  | .arr xs => !xs.isEmpty
  | .obj kvs => !kvs.isEmpty

/-- Python `x or dflt` on an optional field value. -/
def orDefault (v : Option Jv) (dflt : Jv) : Jv :=
  match v with
  | some x => if jvTruthy x then x else dflt
  | none => dflt

/-- Python `str.strip()`: remove leading and trailing whitespace
(space, tab, carriage return, newline). -/
def pyStrip (s : String) : String :=
  ⟨(((s.data.dropWhile Char.isWhitespace).reverse.dropWhile Char.isWhitespace).reverse)⟩

/-- Embedding of one iteration of `stdin_reader` (`src/core/cli.py`,
`cmd_transcribe_ui`): strip the line, skip it when empty, parse it with
`json.loads`, and drop it when parsing fails.  Returns the message that
gets enqueued, if any. -/
def readLine (line : String) : Option Jv :=
  let stripped := pyStrip line
  if stripped = "" then none
  else loads stripped

/-- Messages the reader thread enqueues for a sequence of stdin lines:
empty and malformed lines are dropped, everything else is enqueued in
order. -/
def stdin_reader (lines : List String) : List Jv :=
  lines.filterMap readLine

/-- One Result line the interactive worker prints, decomposed into the
`json_response` arguments that produce it. -/
inductive Out : Type where
  | result (success : Bool) (data : Option (List (String × Jv))) (error : Option String)
deriving Repr

/-- Session state of the interactive worker that the dispatch loop can
observe and mutate: the displayed timeline context, the displayed
selection, and whether `shutdown` has quit the application. -/
structure Session : Type where
  timelineCtx : Jv
  selectionCtx : Jv
  halted : Bool
deriving Repr

/-- Outcomes of the worker's external collaborators, fixed per run: which
paths exist on disk (`Path.exists`), the outcome of `transcribe_video`
for a given input (its result dict, or the exception message), and the
path that `cmd_generate_test_srt` writes. -/
structure WEnv : Type where
  fileExists : String → Bool
  jobResult : String → Except String (List (String × Jv))
  testPlacePath : String

/-- Value of `settings['input_file']` that actually reaches the
`Path(input_file)` call: the `input` field when it is a nonempty string.
A falsy field (absent, null, empty) fails the `if not input_file` guard
and only shows a warning dialog; a truthy non-string raises in
`Path(input_file)` and aborts the slot without emitting a Result, which
is observationally the same as the guard path. -/
def msgStrField (kvs : List (String × Jv)) (k : String) : Option String :=
  match jGet kvs k with
  | some (.str s) => if s = "" then none else some s
  | _ => none

/-- Test on a decoded message for `cmd.get('event') == name`: Python
string equality, false when the field is absent or not a string. -/
def isEventKind (kvs : List (String × Jv)) (name : String) : Bool :=
  match jGet kvs "event" with
  | some (.str s) => s == name
  | _ => false

/-- Test on a decoded message for `cmd.get('cmd') == name`. -/
def isCmdKind (kvs : List (String × Jv)) (name : String) : Bool :=
  match jGet kvs "cmd" with
  | some (.str s) => s == name
  | _ => false

/-- The Result printed for a finished `transcribe_video` run
(`on_transcribe_requested`, `src/core/cli.py:369-448`, interactive
mode): `json_response(True, data=result.__dict__)` on success,
`json_response(False, error=str(e))` on exception. -/
def jobOut (env : WEnv) (p : String) : Out :=
  match env.jobResult p with
  | .ok d => .result true (some d) none
  | .error e => .result false none (some e)

/-- Embedding of the worker's dispatch of its queued messages
(`poll_commands` in `src/core/cli.py:508-547` together with the handlers
it calls).  Each queue entry is routed on its `event`/`cmd` field:
events update the displayed context and produce no Result; `test_place`
prints one success Result; `transcribe`/`transcribe_range` run
`transcribe_video` synchronously and print exactly one Result, but only
when the input field is a truthy string naming an existing file — the
missing/nonexistent-input paths show a dialog and return without
printing; `cancel` prints `json_response(False, error='cancel')` and
nothing else; `shutdown` quits the application, leaving the rest of the
queue unprocessed.  A non-object message makes `cmd.get` raise in the
timer slot, which discards it without output.  While a job runs, its
progress callback calls `QApplication.processEvents()`, so the poll
timer fires reentrantly and dispatches the messages queued behind the
command; the schedule modelled here delivers all of them during the job,
before the job's own Result is printed. -/
def runQueue (env : WEnv) : Session → List Jv → Session × List Out
  | s, [] => (s, [])
  | s, .obj kvs :: rest =>
      if isEventKind kvs "timeline_state" then
        runQueue env { s with timelineCtx := orDefault (jGet kvs "timeline") (.obj []) } rest
      else if isEventKind kvs "selection" then
        runQueue env { s with selectionCtx := orDefault (jGet kvs "items") (.arr []) } rest
      else if isCmdKind kvs "test_place" then
        let p := runQueue env s rest
        (p.1, .result true (some [("srt_path", .str env.testPlacePath)]) none :: p.2)
      else if isCmdKind kvs "transcribe" || isCmdKind kvs "transcribe_range" then
        match msgStrField kvs "input" with
        | none => runQueue env s rest
        | some p =>
            if env.fileExists p then
              let q := runQueue env s rest
              (q.1, q.2 ++ [jobOut env p])
            else runQueue env s rest
      else if isCmdKind kvs "cancel" then
        let p := runQueue env s rest
        (p.1, .result false none (some "cancel") :: p.2)
      else if isCmdKind kvs "shutdown" then
        ({ s with halted := true }, [])
      else runQueue env s rest
  | s, _ :: rest => runQueue env s rest

/-- Session at worker start: no context displayed yet, not halted. -/
def initSession : Session := ⟨.obj [], .arr [], false⟩

/-- Actions the supervisor can take on the worker process during
shutdown. -/
inductive SupAction : Type where
  | writeLine (line : String)
  | terminate
  | wait (timeoutSecs : Nat)
  | kill
deriving Repr, DecidableEq

/-- State of the worker process as the supervisor's cleanup path finds
it: whether its stdin is still writable and whether it exits before the
bounded wait expires (covering the usual case that `terminate` already
ended it). -/
structure ProcState : Type where
  stdinOpen : Bool
  exitsWithinTimeout : Bool
deriving Repr, DecidableEq

/-- Embedding of the supervisor's shutdown sequence: the `finally` block
of `main` in `src/resolve_scripts/resolve-ai-helper.py:283-297`.  It
attempts, in order: write the line `{"cmd":"shutdown"}` to the worker's
stdin, call `proc.terminate()`, and `proc.wait(timeout=5)`; each step is
wrapped in `try/except Exception: pass`, so later steps run regardless
of earlier failures, and nothing follows the bounded wait.  Returns the
attempted actions in order, paired with whether the worker process can
still be running when the supervisor returns. -/
def supervisorShutdown (p : ProcState) : List SupAction × Bool :=
  ([.writeLine "\x7b\"cmd\":\"shutdown\"\x7d", .terminate, .wait 5],
    !p.exitsWithinTimeout)

/-- Python `int(x)` on a rational: truncation toward zero. -/
def pyInt (x : ℚ) : Int := if 0 ≤ x then ⌊x⌋ else -⌊-x⌋

/-- Python `x % m` on rationals (result has the modulus's sign; only
used with positive moduli here). -/
def pyMod (x m : ℚ) : ℚ := x - m * ⌊x / m⌋

/-- Python `x // m` on rationals. -/
def pyFloorDiv (x m : ℚ) : ℚ := (⌊x / m⌋ : ℤ)

/-- Python `"%0wd" % n`: decimal rendering zero-padded to width `w`,
with the padding inserted after the sign for negative numbers. -/
def zeroPad (w : Nat) (n : Int) : String :=
  if n < 0 then
    "-" ++ ⟨List.replicate (w - 1 - (natRepr n.natAbs).length) '0'⟩ ++ ⟨natRepr n.natAbs⟩
  else
    ⟨List.replicate (w - (natRepr n.natAbs).length) '0'⟩ ++ ⟨natRepr n.natAbs⟩

/-- Embedding of `format_srt_timestamp` (`src/core/utils.py:105-111`),
with the Python float arithmetic carried out exactly on rationals:
`milliseconds = int((seconds % 1) * 1000)`, `hours = int(seconds //
3600)`, `minutes = int((seconds % 3600) // 60)`, `secs = int(seconds %
60)`, formatted as `HH:MM:SS,mmm` via `%02d`/`%03d`. -/
def format_srt_timestamp (seconds : ℚ) : String :=
  let milliseconds := pyInt (pyMod seconds 1 * 1000)
  let hours := pyInt (pyFloorDiv seconds 3600)
  let minutes := pyInt (pyFloorDiv (pyMod seconds 3600) 60)
  let secs := pyInt (pyMod seconds 60)
  zeroPad 2 hours ++ ":" ++ zeroPad 2 minutes ++ ":" ++ zeroPad 2 secs
    ++ "," ++ zeroPad 3 milliseconds

/-- One timed text segment handed to the subtitle writer: the `start`,
`end` and `text` entries of a segment dict built by `transcribe_video`
(the Python `end` key is `stop` here, `end` being reserved). -/
structure Seg : Type where
  start : ℚ
  stop : ℚ
  text : String

/-- One SRT cue as `write_srt` emits it: index, the two timing strings,
and the stripped text. -/
structure Cue : Type where
  idx : Nat
  startTs : String
  stopTs : String
  text : String

/-- Embedding of the emission loop of `write_srt`
(`src/core/transcribe.py:220-240`): `for i, seg in enumerate(segments,
start=1)` with `continue` on empty stripped text — the index advances
even for skipped segments. -/
def srtCues : Nat → List Seg → List Cue
  | _, [] => []
  | i, seg :: rest =>
      if pyStrip seg.text = "" then srtCues (i + 1) rest
      else ⟨i, format_srt_timestamp seg.start, format_srt_timestamp seg.stop,
        pyStrip seg.text⟩ :: srtCues (i + 1) rest

/-- Text of one cue block: index line, timing line, text line, blank
line. -/
def renderCue (c : Cue) : String :=
  (⟨natRepr c.idx⟩ : String) ++ "\n" ++ c.startTs ++ " --> " ++ c.stopTs
    ++ "\n" ++ c.text ++ "\n\n"

/-- Embedding of `write_srt` (`src/core/transcribe.py:220-240`): the full
file content it writes. -/
def write_srt (segments : List Seg) : String :=
  String.join ((srtCues 1 segments).map renderCue)

/-- Outcomes of the external collaborators of `transcribe_video`
(`src/core/transcribe.py:54-217`), fixed per run: input existence and
format validity, the FFmpeg extraction (and whether a failing extraction
leaves a partial audio file behind), the model load, the recognition
pass, whether writing the subtitle file succeeds, and whether the OS
file removal inside `cleanup_temp_files` succeeds — its `unlink`/
`rmtree` can raise, and `cleanup_temp_files` (`src/core/utils.py:
148-158`) swallows the exception with a warning, leaving the file. -/
structure TEnv : Type where
  inputExists : Bool
  validFormat : Bool
  extractOk : Except String Unit
  extractLeavesPartial : Bool
  loadOk : Except String Unit
  recognize : Except String (List Seg)
  writeOk : Bool
  cleanupOk : Bool

/-- File-system effects `transcribe_video` can perform, in order: create
the temporary extracted-audio file, write the artifact (with the content
`write_srt` produces), and run `cleanup_temp_files` on the temporary
file.  `cleanupTemp ok` records the removal attempt together with its
OS outcome: when the file exists it is removed only if the
`unlink`/`rmtree` call does not raise (`ok`); a raising call is caught
and merely warned about (`src/core/utils.py:148-158`), so the file
survives. -/
inductive FsEff : Type where
  | createTemp
  | writeArtifact (content : String)
  | cleanupTemp (ok : Bool)
deriving Repr, DecidableEq

/-- Temp-file existence after a trace, starting from a given state. -/
def tempAfterFrom (tmp : Bool) : List FsEff → Bool
  | [] => tmp
  | .createTemp :: rest => tempAfterFrom true rest
  | .writeArtifact _ :: rest => tempAfterFrom tmp rest
  | .cleanupTemp ok :: rest => tempAfterFrom (tmp && !ok) rest

/-- Whether the temporary audio file exists after a trace of effects. -/
def tempAfter (t : List FsEff) : Bool := tempAfterFrom false t

/-- Number of artifact writes in a trace. -/
def artifactWrites : List FsEff → Nat
  | [] => 0
  | .writeArtifact _ :: rest => artifactWrites rest + 1
  | _ :: rest => artifactWrites rest

/-- Embedding of the control flow of `transcribe_video`
(`src/core/transcribe.py:54-217`), reduced to its outcome and
file-system effects.  Validation failures raise before the `try` block,
so no temporary file exists yet; each failure inside the `try` is caught
and re-raised as `RuntimeError("Transcription failed: ...")` after
`cleanup_temp_files(audio_path)`; the success path writes the SRT once
and then runs `cleanup_temp_files(audio_path)`.  Every cleanup call is
only an attempt: its OS removal can fail (`env.cleanupOk = false`), in
which case the temporary audio file survives. -/
def transcribe_video (env : TEnv) : Except String (List Seg) × List FsEff :=
  if !env.inputExists then (.error "Video file not found", [])
  else if !env.validFormat then (.error "Invalid video file format", [])
  else
    match env.extractOk with
    | .error e =>
        (.error ("Transcription failed: " ++ e),
          (if env.extractLeavesPartial then [.createTemp] else []) ++ [.cleanupTemp env.cleanupOk])
    | .ok _ =>
        match env.loadOk with
        | .error e =>
            (.error ("Transcription failed: " ++ e), [.createTemp, .cleanupTemp env.cleanupOk])
        | .ok _ =>
            match env.recognize with
            | .error e =>
                (.error ("Transcription failed: " ++ e), [.createTemp, .cleanupTemp env.cleanupOk])
            | .ok segs =>
                if env.writeOk then
                  (.ok segs, [.createTemp, .writeArtifact (write_srt segs), .cleanupTemp env.cleanupOk])
                else
                  (.error "Transcription failed: write error",
                    [.createTemp, .writeArtifact (write_srt segs), .cleanupTemp env.cleanupOk])

theorem natDigitsAux_fuel_inv (f1 : Nat) : ∀ f2 n, n ≤ f1 → n ≤ f2 →
    natDigitsAux f1 n = natDigitsAux f2 n := by
  induction f1 with
  | zero =>
      intro f2 n h1 _
      interval_cases n
      cases f2 <;> rfl
  | succ f ih =>
      intro f2 n h1 h2
      match n with
      | 0 => cases f2 <;> rfl
      | m + 1 =>
          match f2 with
          | 0 => omega
          | f2 + 1 =>
              rw [natDigitsAux, natDigitsAux]
              have hd : (m + 1) / 10 < m + 1 := Nat.div_lt_self (Nat.succ_pos m) (by norm_num)
              rw [ih f2 ((m + 1) / 10) (by omega) (by omega)]

theorem natRepr_lt10 (m : Nat) (h : m < 10) : natRepr m = [Nat.digitChar m] := by
  match m with
  | 0 => rfl
  | k + 1 =>
      rw [natRepr, if_neg (Nat.succ_ne_zero k), natDigitsAux]
      have hq : (k + 1) / 10 = 0 := Nat.div_eq_of_lt h
      have hr : (k + 1) % 10 = k + 1 := Nat.mod_eq_of_lt h
      rw [hq, hr]
      match k with
      | 0 => rfl
      | j + 1 => rw [natDigitsAux]; rfl

theorem natRepr_lt100 (m : Nat) (h1 : 10 ≤ m) (h2 : m < 100) :
    natRepr m = [Nat.digitChar (m / 10), Nat.digitChar (m % 10)] := by
  match m, h1 with
  | k + 1, _ =>
      rw [natRepr, if_neg (Nat.succ_ne_zero k), natDigitsAux]
      have hq1 : 1 ≤ (k + 1) / 10 := by omega
      have hq2 : (k + 1) / 10 < 10 := by omega
      rw [natDigitsAux_fuel_inv k ((k + 1) / 10) ((k + 1) / 10) (by omega) le_rfl]
      rw [show natDigitsAux ((k + 1) / 10) ((k + 1) / 10) = natRepr ((k + 1) / 10) by
        rw [natRepr, if_neg (by omega)]]
      rw [natRepr_lt10 _ hq2]
      rfl

theorem natRepr_lt1000 (m : Nat) (h1 : 100 ≤ m) (h2 : m < 1000) :
    natRepr m = [Nat.digitChar (m / 100), Nat.digitChar (m / 10 % 10),
      Nat.digitChar (m % 10)] := by
  match m, h1 with
  | k + 1, _ =>
      rw [natRepr, if_neg (Nat.succ_ne_zero k), natDigitsAux]
      have hq1 : 10 ≤ (k + 1) / 10 := by omega
      have hq2 : (k + 1) / 10 < 100 := by omega
      rw [natDigitsAux_fuel_inv k ((k + 1) / 10) ((k + 1) / 10) (by omega) le_rfl]
      rw [show natDigitsAux ((k + 1) / 10) ((k + 1) / 10) = natRepr ((k + 1) / 10) by
        rw [natRepr, if_neg (by omega)]]
      rw [natRepr_lt100 _ hq1 hq2]
      rw [show (k + 1) / 10 / 10 = (k + 1) / 100 from Nat.div_div_eq_div_mul (k+1) 10 10 ▸ rfl]
      rfl

theorem string_mk_append (a b : List Char) :
    (⟨a⟩ : String) ++ (⟨b⟩ : String) = ⟨a ++ b⟩ := rfl

theorem zeroPad_two (m : Nat) (h : m < 100) :
    zeroPad 2 (m : Int) = ⟨[Nat.digitChar (m / 10), Nat.digitChar (m % 10)]⟩ := by
  rw [zeroPad, if_neg (by omega), show ((m : Int)).natAbs = m from rfl]
  by_cases h10 : m < 10
  · rw [natRepr_lt10 m h10]
    rw [show m / 10 = 0 from Nat.div_eq_of_lt h10, show m % 10 = m from Nat.mod_eq_of_lt h10]
    rfl
  · rw [natRepr_lt100 m (by omega) h]
    rfl

theorem zeroPad_three (m : Nat) (h : m < 1000) :
    zeroPad 3 (m : Int) = ⟨[Nat.digitChar (m / 100), Nat.digitChar (m / 10 % 10),
      Nat.digitChar (m % 10)]⟩ := by
  rw [zeroPad, if_neg (by omega), show ((m : Int)).natAbs = m from rfl]
  by_cases h10 : m < 10
  · rw [natRepr_lt10 m h10]
    rw [show m / 100 = 0 by omega, show m / 10 = 0 from Nat.div_eq_of_lt h10,
      show m % 10 = m from Nat.mod_eq_of_lt h10]
    rfl
  · by_cases h100 : m < 100
    · rw [natRepr_lt100 m (by omega) h100]
      rw [show m / 100 = 0 by omega, show m / 10 % 10 = m / 10 from Nat.mod_eq_of_lt (by omega)]
      rfl
    · rw [natRepr_lt1000 m (by omega) h]
      rfl

theorem pyMod_nonneg (x m : ℚ) (hm : 0 < m) : 0 ≤ pyMod x m := by
  rw [pyMod, sub_nonneg]
  calc m * ⌊x / m⌋ ≤ m * (x / m) := by
        exact mul_le_mul_of_nonneg_left (Int.floor_le (x / m)) (le_of_lt hm)
    _ = x := mul_div_cancel₀ x (ne_of_gt hm)

theorem pyMod_lt (x m : ℚ) (hm : 0 < m) : pyMod x m < m := by
  rw [pyMod, sub_lt_iff_lt_add]
  calc x = m * (x / m) := (mul_div_cancel₀ x (ne_of_gt hm)).symm
    _ < m * (⌊x / m⌋ + 1) := by
        exact mul_lt_mul_of_pos_left (Int.lt_floor_add_one (x / m)) hm
    _ = m + m * ⌊x / m⌋ := by ring

/-- Canonical `HH:MM:SS,mmm` string for field values `h`, `m`, `s`,
`ms`. -/
def srtTimeShape (h m s ms : Nat) : String :=
  ⟨[Nat.digitChar (h / 10), Nat.digitChar (h % 10), ':',
    Nat.digitChar (m / 10), Nat.digitChar (m % 10), ':',
    Nat.digitChar (s / 10), Nat.digitChar (s % 10), ',',
    Nat.digitChar (ms / 100), Nat.digitChar (ms / 10 % 10), Nat.digitChar (ms % 10)]⟩

theorem format_srt_timestamp_shape (q : ℚ) (h0 : 0 ≤ q) (h1 : q < 360000) :
    ∃ h m s ms : Nat, h < 100 ∧ m < 60 ∧ s < 60 ∧ ms < 1000 ∧
      format_srt_timestamp q = srtTimeShape h m s ms := by
  have hH0 : (0 : Int) ≤ ⌊q / 3600⌋ := Int.floor_nonneg.mpr (by positivity)
  have hH1 : ⌊q / 3600⌋ < 100 := Int.floor_lt.mpr (by
    rw [div_lt_iff₀ (by norm_num : (0 : ℚ) < 3600)]
    norm_num
    linarith)
  have hM3600 : 0 ≤ pyMod q 3600 := pyMod_nonneg q 3600 (by norm_num)
  have hM3600b : pyMod q 3600 < 3600 := pyMod_lt q 3600 (by norm_num)
  have hM0 : (0 : Int) ≤ ⌊pyMod q 3600 / 60⌋ := Int.floor_nonneg.mpr (by positivity)
  have hM1 : ⌊pyMod q 3600 / 60⌋ < 60 := Int.floor_lt.mpr (by
    rw [div_lt_iff₀ (by norm_num : (0 : ℚ) < 60)]
    norm_num
    linarith)
  have hS60 : 0 ≤ pyMod q 60 := pyMod_nonneg q 60 (by norm_num)
  have hS60b : pyMod q 60 < 60 := pyMod_lt q 60 (by norm_num)
  have hS0 : (0 : Int) ≤ ⌊pyMod q 60⌋ := Int.floor_nonneg.mpr hS60
  have hS1 : ⌊pyMod q 60⌋ < 60 := Int.floor_lt.mpr (by norm_num; linarith)
  have hMs1q : pyMod q 1 < 1 := pyMod_lt q 1 (by norm_num)
  have hMs0q : 0 ≤ pyMod q 1 := pyMod_nonneg q 1 (by norm_num)
  have hMs0 : (0 : Int) ≤ ⌊pyMod q 1 * 1000⌋ := Int.floor_nonneg.mpr (by positivity)
  have hMs1 : ⌊pyMod q 1 * 1000⌋ < 1000 := Int.floor_lt.mpr (by
    norm_num
    nlinarith)
  refine ⟨(⌊q / 3600⌋).toNat, (⌊pyMod q 3600 / 60⌋).toNat, (⌊pyMod q 60⌋).toNat,
    (⌊pyMod q 1 * 1000⌋).toNat, by omega, by omega, by omega, by omega, ?_⟩
  have eH : pyInt (pyFloorDiv q 3600) = ⌊q / 3600⌋ := by
    rw [pyFloorDiv, pyInt, if_pos (by exact_mod_cast hH0), Int.floor_intCast]
  have eM : pyInt (pyFloorDiv (pyMod q 3600) 60) = ⌊pyMod q 3600 / 60⌋ := by
    rw [pyFloorDiv, pyInt, if_pos (by exact_mod_cast hM0), Int.floor_intCast]
  have eS : pyInt (pyMod q 60) = ⌊pyMod q 60⌋ := by
    rw [pyInt, if_pos hS60]
  have eMs : pyInt (pyMod q 1 * 1000) = ⌊pyMod q 1 * 1000⌋ := by
    rw [pyInt, if_pos (by positivity)]
  rw [format_srt_timestamp]
  rw [eH, eM, eS, eMs]
  rw [show ⌊q / 3600⌋ = ((⌊q / 3600⌋).toNat : Int) from (Int.toNat_of_nonneg hH0).symm,
    show ⌊pyMod q 3600 / 60⌋ = ((⌊pyMod q 3600 / 60⌋).toNat : Int) from
      (Int.toNat_of_nonneg hM0).symm,
    show ⌊pyMod q 60⌋ = ((⌊pyMod q 60⌋).toNat : Int) from (Int.toNat_of_nonneg hS0).symm,
    show ⌊pyMod q 1 * 1000⌋ = ((⌊pyMod q 1 * 1000⌋).toNat : Int) from
      (Int.toNat_of_nonneg hMs0).symm]
  rw [zeroPad_two _ (by omega), zeroPad_two _ (by omega), zeroPad_two _ (by omega),
    zeroPad_three _ (by omega)]
  rfl

theorem srtCues_idx_all_nonempty (segs : List Seg) : ∀ i : Nat,
    (∀ seg ∈ segs, pyStrip seg.text ≠ "") →
    ((srtCues i segs).map Cue.idx) = List.range' i segs.length := by
  induction segs with
  | nil => intro i _; rfl
  | cons seg rest ih =>
      intro i h
      rw [srtCues, if_neg (h seg (List.mem_cons_self seg rest)), List.map_cons,
        List.length_cons, List.range'_succ]
      rw [ih (i + 1) (fun s hs => h s (List.mem_cons_of_mem _ hs))]

theorem srtCues_idx_lb (segs : List Seg) : ∀ (i : Nat) (c : Cue),
    c ∈ srtCues i segs → i ≤ c.idx := by
  induction segs with
  | nil => intro i c hc; simp [srtCues] at hc
  | cons seg rest ih =>
      intro i c hc
      rw [srtCues] at hc
      by_cases he : pyStrip seg.text = ""
      · rw [if_pos he] at hc
        have := ih (i + 1) c hc
        omega
      · rw [if_neg he] at hc
        rcases List.mem_cons.mp hc with rfl | hc
        · exact le_rfl
        · have := ih (i + 1) c hc
          omega

theorem srtCues_idx_chain (segs : List Seg) : ∀ i : Nat,
    List.Chain' (· < ·) ((srtCues i segs).map Cue.idx) := by
  induction segs with
  | nil => intro i; simp [srtCues]
  | cons seg rest ih =>
      intro i
      rw [srtCues]
      by_cases he : pyStrip seg.text = ""
      · rw [if_pos he]; exact ih (i + 1)
      · rw [if_neg he, List.map_cons]
        refine List.chain'_cons'.mpr ⟨?_, ih (i + 1)⟩
        intro y hy
        obtain ⟨c, hc, rfl⟩ := List.mem_map.mp (List.mem_of_mem_head? hy)
        have := srtCues_idx_lb rest (i + 1) c hc
        show i < c.idx
        omega

theorem srtCues_timing_shape (segs : List Seg) : ∀ (i : Nat) (c : Cue),
    (∀ seg ∈ segs, 0 ≤ seg.start ∧ seg.start < 360000 ∧ 0 ≤ seg.stop ∧ seg.stop < 360000) →
    c ∈ srtCues i segs →
    (∃ h m s ms : Nat, h < 100 ∧ m < 60 ∧ s < 60 ∧ ms < 1000 ∧
      c.startTs = srtTimeShape h m s ms) ∧
    (∃ h m s ms : Nat, h < 100 ∧ m < 60 ∧ s < 60 ∧ ms < 1000 ∧
      c.stopTs = srtTimeShape h m s ms) := by
  induction segs with
  | nil => intro i c _ hc; simp [srtCues] at hc
  | cons seg rest ih =>
      intro i c hb hc
      rw [srtCues] at hc
      by_cases he : pyStrip seg.text = ""
      · rw [if_pos he] at hc
        exact ih (i + 1) c (fun s hs => hb s (List.mem_cons_of_mem _ hs)) hc
      · rw [if_neg he] at hc
        rcases List.mem_cons.mp hc with rfl | hc
        · obtain ⟨hs0, hs1, ht0, ht1⟩ := hb seg (List.mem_cons_self seg rest)
          exact ⟨format_srt_timestamp_shape seg.start hs0 hs1,
            format_srt_timestamp_shape seg.stop ht0 ht1⟩
        · exact ih (i + 1) c (fun s hs => hb s (List.mem_cons_of_mem _ hs)) hc

/-- Collaborator outcomes in which no input file exists. -/
def envMissing : WEnv :=
  ⟨fun _ => false, fun _ => .error "unused", "/tmp/resolve-ai-helper/test_from_exe.srt"⟩

/-- Collaborator outcomes in which every input exists and the job
succeeds with a fixed result dict. -/
def envJobOk : WEnv :=
  ⟨fun _ => true, fun _ => .ok [("srt_path", .str "/tmp/out.srt")],
    "/tmp/resolve-ai-helper/test_from_exe.srt"⟩

/-- C1 counterexample: a `transcribe` command whose `input` field is
absent, and one naming a file that does not exist, are dequeued by the
dispatch loop but emit no Result at all — `on_transcribe_requested`
returns after showing a dialog, so the claimed "exactly one Result" is
violated on both inputs. -/
theorem claim_c1_counterexample :
    (runQueue envMissing initSession [.obj [("cmd", .str "transcribe")]]).2 = []
    ∧ (runQueue envMissing initSession
        [.obj [("cmd", .str "transcribe"), ("input", .str "/missing.mp4")]]).2 = [] :=
  ⟨rfl, rfl⟩

/-- C1 amended: a dequeued `transcribe` or `transcribe_range` command
emits exactly one Result when its `input` field is a nonempty string
naming an existing file; when the input is absent or the file does not
exist the handler only shows a dialog and emits no Result. -/
theorem claim_c1_amended (env : WEnv) (s : Session) (c : String)
    (hc : c = "transcribe" ∨ c = "transcribe_range") (p : String) (hp : p ≠ "") :
    (runQueue env s [.obj [("cmd", .str c), ("input", .str p)]]).2
        = (if env.fileExists p then [jobOut env p] else [])
    ∧ (runQueue env s [.obj [("cmd", .str c)]]).2 = [] := by
  rcases hc with rfl | rfl <;>
    refine ⟨?_, ?_⟩ <;>
      [skip; rfl; skip; rfl] <;>
    · by_cases hfe : env.fileExists p <;>
        simp [runQueue, isEventKind, isCmdKind, jGet, msgStrField, hp, hfe]

/-- C1 amended witness at a concrete command, environment and session. -/
theorem claim_c1_witness :
    ("transcribe" = "transcribe" ∨ "transcribe" = "transcribe_range")
    ∧ "/v.mp4" ≠ ""
    ∧ ((runQueue envJobOk initSession
          [.obj [("cmd", .str "transcribe"), ("input", .str "/v.mp4")]]).2
        = (if envJobOk.fileExists "/v.mp4" then [jobOut envJobOk "/v.mp4"] else [])
      ∧ (runQueue envJobOk initSession [.obj [("cmd", .str "transcribe")]]).2 = []) :=
  ⟨Or.inl rfl, by decide,
    claim_c1_amended envJobOk initSession "transcribe" (Or.inl rfl) "/v.mp4" (by decide)⟩

/-- C2 counterexample: a `cancel` dequeued while the job is Running (the
poll timer fires reentrantly from the job's progress callback via
`QApplication.processEvents`) prints `{"success": false, "error":
"cancel"}` immediately, but no cancel flag exists and the interactive
progress callback checks nothing, so the job runs to completion and
prints its own Result too: two Results are emitted for the same job. -/
theorem claim_c2_counterexample :
    (runQueue envJobOk initSession
        [.obj [("cmd", .str "transcribe"), ("input", .str "/v.mp4")],
         .obj [("cmd", .str "cancel")]]).2
      = [.result false none (some "cancel"),
         .result true (some [("srt_path", .str "/tmp/out.srt")]) none]
    ∧ (runQueue envJobOk initSession
        [.obj [("cmd", .str "transcribe"), ("input", .str "/v.mp4")],
         .obj [("cmd", .str "cancel")]]).2.length = 2 :=
  ⟨rfl, rfl⟩

/-- C2 amended: a `cancel` command dequeued while a job is Running is
handled within one reentrant dispatch (one progress-callback
`processEvents`): it immediately emits a Result with `error ==
"cancel"`, sets no flag the Job Runner could consume, and the running
job still emits its own Result, so exactly these two Results appear for
the job. -/
theorem claim_c2_amended (env : WEnv) (s : Session) (p : String) (hp : p ≠ "")
    (hex : env.fileExists p = true) :
    (runQueue env s [.obj [("cmd", .str "transcribe"), ("input", .str p)],
        .obj [("cmd", .str "cancel")]]).2
      = [.result false none (some "cancel"), jobOut env p] := by
  simp [runQueue, isEventKind, isCmdKind, jGet, msgStrField, hp, hex]

/-- C2 amended witness at a concrete environment and queue. -/
theorem claim_c2_witness :
    "/v.mp4" ≠ "" ∧ envJobOk.fileExists "/v.mp4" = true
    ∧ (runQueue envJobOk initSession
        [.obj [("cmd", .str "transcribe"), ("input", .str "/v.mp4")],
         .obj [("cmd", .str "cancel")]]).2
      = [.result false none (some "cancel"), jobOut envJobOk "/v.mp4"] :=
  ⟨by decide, rfl, claim_c2_amended envJobOk initSession "/v.mp4" (by decide) rfl⟩

/-- C4 counterexample: the line `42` is valid JSON but not an object;
neither decoder fails on it — the worker's reader enqueues the number as
a message and `parse_json_response` returns it. -/
theorem claim_c4_counterexample :
    readLine "42" = some (.num 42) ∧ parse_json_response "42" = .num 42 :=
  ⟨rfl, rfl⟩

/-- C4 amended: `decode` fails only on malformed JSON (for
`parse_json_response`, by returning an error-response dict); a line that
is valid JSON but not an object is accepted, and the non-object value is
returned as the message. -/
theorem claim_c4_amended (v : Jv) (hplain : plainJ v = true)
    (_hnotobj : ∀ kvs, v ≠ .obj kvs) (l : String) (hmal : loads l = none) :
    parse_json_response (dumps v) = v
    ∧ parse_json_response l
        = .obj [("success", .bool false), ("error", .str "Failed to parse response")] := by
  constructor
  · rw [parse_json_response, loads_dumps v hplain]
  · rw [parse_json_response, hmal]

/-- C4 amended witness at the number 42 and the line `not json`. -/
theorem claim_c4_witness :
    plainJ (.num 42) = true
    ∧ (∀ kvs, Jv.num 42 ≠ .obj kvs)
    ∧ loads "not json" = none
    ∧ (parse_json_response (dumps (.num 42)) = Jv.num 42
      ∧ parse_json_response "not json"
          = .obj [("success", .bool false), ("error", .str "Failed to parse response")]) :=
  ⟨rfl, fun _ h => Jv.noConfusion h, rfl,
    claim_c4_amended (.num 42) rfl (fun _ h => Jv.noConfusion h) "not json" rfl⟩

/-- C5: a malformed line fed to the worker's stdin is dropped by the
reader thread, so the dispatch loop's Session state, every emitted
Result, and the processing of all other lines are identical to the run
without that line. -/
theorem claim_c5_malformed_line_no_effect (env : WEnv) (s : Session)
    (pre post : List String) (l : String) (h : readLine l = none) :
    runQueue env s (stdin_reader (pre ++ l :: post))
      = runQueue env s (stdin_reader (pre ++ post)) := by
  rw [stdin_reader, stdin_reader, List.filterMap_append, List.filterMap_append,
    List.filterMap_cons_none h]

/-- C5 witness: the line `not json` inserted before a valid `test_place`
command changes nothing. -/
theorem claim_c5_witness :
    readLine "not json" = none
    ∧ runQueue envJobOk initSession
        (stdin_reader (["\x7b\"event\": \"timeline_state\"\x7d"]
          ++ "not json" :: ["\x7b\"cmd\": \"test_place\"\x7d"]))
      = runQueue envJobOk initSession
        (stdin_reader (["\x7b\"event\": \"timeline_state\"\x7d"]
          ++ ["\x7b\"cmd\": \"test_place\"\x7d"])) :=
  ⟨rfl, claim_c5_malformed_line_no_effect envJobOk initSession
    ["\x7b\"event\": \"timeline_state\"\x7d"] ["\x7b\"cmd\": \"test_place\"\x7d"]
    "not json" rfl⟩

/-- C6 counterexample: when the worker does not exit within the bounded
wait, the supervisor's shutdown sequence still performs no force-kill —
`proc.kill()` never appears among the attempted actions and the worker
can still be running when the supervisor returns. -/
theorem claim_c6_counterexample :
    SupAction.kill ∉ (supervisorShutdown ⟨true, false⟩).1
    ∧ (supervisorShutdown ⟨true, false⟩).2 = true :=
  ⟨by decide, rfl⟩

/-- C6 amended: the shutdown sequence performs, in order: write a
`shutdown` command line to the worker's stdin, attempt graceful
termination, and wait with a bounded (five-second) timeout; it does not
force-kill the worker if it has not exited by then. -/
theorem claim_c6_amended (p : ProcState) :
    (supervisorShutdown p).1
      = [.writeLine "\x7b\"cmd\":\"shutdown\"\x7d", .terminate, .wait 5]
    ∧ (∀ a ∈ (supervisorShutdown p).1, a ≠ .kill)
    ∧ (supervisorShutdown p).2 = !p.exitsWithinTimeout := by
  refine ⟨rfl, ?_, rfl⟩
  intro a ha
  rw [supervisorShutdown] at ha
  simp only [List.mem_cons, List.not_mem_nil, or_false] at ha
  rcases ha with rfl | rfl | rfl <;> intro hk <;> cases hk

/-- Example segment list with an empty-text segment in the middle. -/
def exampleSegs : List Seg := [⟨0, 1, "Hello"⟩, ⟨1, 2, " "⟩, ⟨2, 3, "World"⟩]

/-- C7 counterexample: `write_srt` on three segments whose middle one has
whitespace-only text writes two cues numbered 1 and 3 — the skipped
segment leaves a gap, so the indices are not the claimed sequential
1, 2, 3, ... -/
theorem claim_c7_counterexample :
    ((srtCues 1 exampleSegs).map Cue.idx) = [1, 3]
    ∧ (srtCues 1 exampleSegs).length = 2 :=
  ⟨rfl, rfl⟩

/-- C7 amended: the subtitle artifact consists of blank-line-separated
cues whose numeric indices are the 1-based positions of their segments
in the input (strictly increasing, with gaps where empty-text segments
were skipped; exactly 1..n when no segment's stripped text is empty),
and, for segment times in [0, 360000), timing lines of the form
`HH:MM:SS,mmm --> HH:MM:SS,mmm`. -/
theorem claim_c7_amended (segs : List Seg)
    (hb : ∀ seg ∈ segs, 0 ≤ seg.start ∧ seg.start < 360000
      ∧ 0 ≤ seg.stop ∧ seg.stop < 360000) :
    List.Chain' (· < ·) ((srtCues 1 segs).map Cue.idx)
    ∧ ((∀ seg ∈ segs, pyStrip seg.text ≠ "") →
        ((srtCues 1 segs).map Cue.idx) = List.range' 1 segs.length)
    ∧ (∀ c ∈ srtCues 1 segs,
        (∃ h m s ms : Nat, h < 100 ∧ m < 60 ∧ s < 60 ∧ ms < 1000 ∧
          c.startTs = srtTimeShape h m s ms)
        ∧ (∃ h m s ms : Nat, h < 100 ∧ m < 60 ∧ s < 60 ∧ ms < 1000 ∧
          c.stopTs = srtTimeShape h m s ms)
        ∧ renderCue c = (⟨natRepr c.idx⟩ : String) ++ "\n" ++ c.startTs ++ " --> "
            ++ c.stopTs ++ "\n" ++ c.text ++ "\n\n")
    ∧ write_srt segs = String.join ((srtCues 1 segs).map renderCue) := by
  refine ⟨srtCues_idx_chain segs 1, fun hne => srtCues_idx_all_nonempty segs 1 hne,
    fun c hc => ?_, rfl⟩
  obtain ⟨hstart, hstop⟩ := srtCues_timing_shape segs 1 c hb hc
  exact ⟨hstart, hstop, rfl⟩

/-- C7 amended witness at a one-segment list. -/
theorem claim_c7_witness :
    (∀ seg ∈ [(⟨0, 1, "Hello"⟩ : Seg)], 0 ≤ seg.start ∧ seg.start < 360000
      ∧ 0 ≤ seg.stop ∧ seg.stop < 360000)
    ∧ List.Chain' (· < ·) ((srtCues 1 [(⟨0, 1, "Hello"⟩ : Seg)]).map Cue.idx) :=
  ⟨by decide, (claim_c7_amended [(⟨0, 1, "Hello"⟩ : Seg)] (by decide)).1⟩

/-- C8 counterexample: when the OS removal inside `cleanup_temp_files`
fails (the exception is swallowed with only a warning,
`src/core/utils.py:148-158`), even a fully successful run leaves the
extracted-audio file behind, contradicting the claimed "no longer
exists afterwards". -/
theorem claim_c8_counterexample :
    (transcribe_video ⟨true, true, .ok (), false, .ok (),
        .ok [(⟨0, 1, "Hello"⟩ : Seg)], true, false⟩).1.isOk = true
    ∧ tempAfter (transcribe_video ⟨true, true, .ok (), false, .ok (),
        .ok [(⟨0, 1, "Hello"⟩ : Seg)], true, false⟩).2 = true :=
  ⟨rfl, rfl⟩

/-- C8 amended: on every run of the job runner, whether it returns
successfully or fails, it writes at most one artifact file (exactly one
on success); on every path where the temporary extracted-audio file may
have been created it runs `cleanup_temp_files` on it, so the file no
longer exists afterwards provided the OS removal succeeds — removal
errors are swallowed with a warning and can leave the file behind. -/
theorem claim_c8_amended (env : TEnv) :
    artifactWrites (transcribe_video env).2 ≤ 1
    ∧ ((transcribe_video env).1.isOk = true → artifactWrites (transcribe_video env).2 = 1)
    ∧ (FsEff.createTemp ∈ (transcribe_video env).2 →
        FsEff.cleanupTemp env.cleanupOk ∈ (transcribe_video env).2)
    ∧ (env.cleanupOk = true → tempAfter (transcribe_video env).2 = false) := by
  obtain ⟨ie, vf, eo, ep, lo, rec, wo, co⟩ := env
  cases ie <;> cases vf <;>
    rcases eo with e | u <;> cases ep <;>
    rcases lo with e2 | u2 <;>
    rcases rec with e3 | segs <;>
    cases wo <;> cases co <;>
    simp [transcribe_video, artifactWrites, tempAfter, tempAfterFrom, Except.isOk,
      Except.toBool]

/-- C8 amended witness at a concrete run in which everything, the
cleanup included, succeeds. -/
theorem claim_c8_witness :
    artifactWrites (transcribe_video ⟨true, true, .ok (), false, .ok (),
        .ok [(⟨0, 1, "Hello"⟩ : Seg)], true, true⟩).2 ≤ 1
    ∧ artifactWrites (transcribe_video ⟨true, true, .ok (), false, .ok (),
        .ok [(⟨0, 1, "Hello"⟩ : Seg)], true, true⟩).2 = 1
    ∧ FsEff.cleanupTemp (true : Bool) ∈ (transcribe_video ⟨true, true, .ok (), false, .ok (),
        .ok [(⟨0, 1, "Hello"⟩ : Seg)], true, true⟩).2
    ∧ tempAfter (transcribe_video ⟨true, true, .ok (), false, .ok (),
        .ok [(⟨0, 1, "Hello"⟩ : Seg)], true, true⟩).2 = false :=
  have h := claim_c8_amended ⟨true, true, .ok (), false, .ok (),
    .ok [(⟨0, 1, "Hello"⟩ : Seg)], true, true⟩
  ⟨h.1, h.2.1 rfl, h.2.2.1 (by decide), h.2.2.2 rfl⟩

/-- C9: when `data` is a dict without `success`/`error` keys, the string
`json_response(success, data, error)` parses to an object whose
`success` field is the `success` argument; but a `success` key inside
`data` silently overwrites the argument in the emitted Result, as the
second conjunct shows at `json_response(True, {"success": False})`. -/
theorem claim_c9_json_response (success : Bool) (d : List (String × Jv))
    (error : Option String)
    (hd : plainFlds d = true)
    (hkeys : ∀ kv ∈ d, kv.1 ≠ "success" ∧ kv.1 ≠ "error")
    (herr : ∀ e, error = some e → plainS e = true) :
    (loads (json_response success (some d) error)
        = some (.obj (jsonResponseFields success (some d) error))
      ∧ jGet (jsonResponseFields success (some d) error) "success"
          = some (.bool success))
    ∧ loads (json_response true (some [("success", .bool false)]) none)
        = some (.obj [("success", .bool false)]) := by
  refine ⟨⟨?_, ?_⟩, ?_⟩
  · rw [json_response]
    exact loads_dumps _ (by
      rw [plainJ]
      exact plainFlds_jsonResponseFields success (some d) error
        (fun d2 h2 => by cases h2; exact hd) herr)
  · exact jGet_jsonResponseFields success (some d) error
      (fun d2 h2 kv hkv => by cases h2; exact (hkeys kv hkv).1)
  · rfl

/-- C9 witness at a concrete successful response. -/
theorem claim_c9_witness :
    plainFlds [("srt_path", Jv.str "/tmp/o.srt")] = true
    ∧ (∀ kv ∈ [("srt_path", Jv.str "/tmp/o.srt")], kv.1 ≠ "success" ∧ kv.1 ≠ "error")
    ∧ jGet (jsonResponseFields true (some [("srt_path", Jv.str "/tmp/o.srt")]) none)
        "success" = some (.bool true) :=
  ⟨rfl, by decide,
    ((claim_c9_json_response true [("srt_path", Jv.str "/tmp/o.srt")] none rfl
      (by decide) (fun e h => by cases h)).1).2⟩

/-- C10: for every rational number of seconds in [0, 360000),
`format_srt_timestamp` returns exactly `HH:MM:SS,mmm`: two-digit hour,
minute and second fields with minutes and seconds below 60, and a
three-digit millisecond field below 1000. -/
theorem claim_c10_format_shape (q : ℚ) (h0 : 0 ≤ q) (h1 : q < 360000) :
    ∃ h m s ms : Nat, h < 100 ∧ m < 60 ∧ s < 60 ∧ ms < 1000 ∧
      format_srt_timestamp q = srtTimeShape h m s ms :=
  format_srt_timestamp_shape q h0 h1

/-- C10 witness at 3661.5 seconds. -/
theorem claim_c10_witness :
    (0 : ℚ) ≤ 7323 / 2 ∧ (7323 / 2 : ℚ) < 360000
    ∧ ∃ h m s ms : Nat, h < 100 ∧ m < 60 ∧ s < 60 ∧ ms < 1000 ∧
      format_srt_timestamp (7323 / 2) = srtTimeShape h m s ms :=
  ⟨by norm_num, by norm_num, claim_c10_format_shape (7323 / 2) (by norm_num) (by norm_num)⟩

/-- C6 amended witness at a process that does not exit within the
timeout. -/
theorem claim_c6_witness :
    (supervisorShutdown ⟨true, false⟩).1
      = [.writeLine "\x7b\"cmd\":\"shutdown\"\x7d", .terminate, .wait 5]
    ∧ (∀ a ∈ (supervisorShutdown (⟨true, false⟩ : ProcState)).1, a ≠ .kill)
    ∧ (supervisorShutdown (⟨true, false⟩ : ProcState)).2
        = !(⟨true, false⟩ : ProcState).exitsWithinTimeout :=
  claim_c6_amended ⟨true, false⟩
